import Mathlib

/-!
Verification of the LEARN-INDEX curation-and-sync pipeline.

The TypeScript sources are shallowly embedded as pure Lean functions:

* JavaScript `Map` objects (insertion-ordered, string-keyed) are embedded as
  association lists `List (String × α)` with `mapGet` / `mapSet` mirroring
  `Map.get` / `Map.set`.
* JavaScript string primitives (`split`, `replace` with a string pattern,
  `toLowerCase`, `trim`, `startsWith`, `endsWith`) are embedded as structural
  recursions over `List Char` so that every definition evaluates by kernel
  reduction on concrete inputs.  ASCII case folding models `toLowerCase`.
* External effects (file reads, `JSON.parse`, the ajv-compiled schema
  validator, `fetch`, `git` subprocesses, the remote Notion client) are
  abstracted into explicit environment records of pure oracle functions; each
  embedded program consumes its oracles exactly where the source performs the
  corresponding effect.
-/

namespace LearnIndex

/-! ## Insertion-ordered string maps (JavaScript `Map`) -/

/-- `Map.get`: value of the first entry with the given key. -/
def mapGet {α : Type} : List (String × α) → String → Option α
  | [], _ => none
  | (k, v) :: rest, key => if k = key then some v else mapGet rest key

/-- `Map.set`: replace the value of an existing key in place, otherwise
append the new entry at the end (JavaScript insertion order). -/
def mapSet {α : Type} : List (String × α) → String → α → List (String × α)
  | [], key, v => [(key, v)]
  | (k, w) :: rest, key, v =>
    if k = key then (k, v) :: rest else (k, w) :: mapSet rest key v

/-- The idiom `m.get(k)!.push(v)` / `m.set(k, [v])`: append one element to
the list stored at `k`, starting a fresh singleton when `k` is absent. -/
def mapPush {α : Type} (m : List (String × List α)) (key : String) (v : α) :
    List (String × List α) :=
  mapSet m key (((mapGet m key).getD []) ++ [v])

theorem mapGet_mapSet {α : Type} (m : List (String × α)) (k k' : String) (v : α) :
    mapGet (mapSet m k v) k' = if k = k' then some v else mapGet m k' := by
  induction m with
  | nil => by_cases h : k = k' <;> simp [mapSet, mapGet, h]
  | cons p rest ih =>
    obtain ⟨pk, pv⟩ := p
    by_cases hpk : pk = k
    · subst hpk
      by_cases h : pk = k' <;> simp [mapSet, mapGet, h]
    · simp only [mapSet, if_neg hpk]
      by_cases h : pk = k'
      · subst h
        have : ¬ k = pk := fun hh => hpk hh.symm
        simp [mapGet, this]
      · simp [mapGet, h, ih]

theorem mapGet_mapPush {α : Type} (m : List (String × List α)) (k k' : String) (v : α) :
    mapGet (mapPush m k v) k' =
      if k = k' then some (((mapGet m k).getD []) ++ [v]) else mapGet m k' := by
  simp [mapPush, mapGet_mapSet]

theorem mapGet_append_of_ne {α : Type} (m : List (String × α)) (k k' : String) (v : α)
    (h : k ≠ k') : mapGet (m ++ [(k, v)]) k' = mapGet m k' := by
  induction m with
  | nil => simp [mapGet, h]
  | cons p rest ih =>
    by_cases hp : p.1 = k' <;> simp [mapGet, hp, ih]

theorem mapSet_eq_append {α : Type} (m : List (String × α)) (k : String) (v : α)
    (h : mapGet m k = none) : mapSet m k v = m ++ [(k, v)] := by
  induction m with
  | nil => simp [mapSet]
  | cons p rest ih =>
    obtain ⟨pk, pv⟩ := p
    by_cases hpk : pk = k
    · subst hpk; simp [mapGet] at h
    · simp only [mapGet, if_neg hpk] at h
      simp [mapSet, hpk, ih h]

/-! ## JavaScript string primitives, embedded structurally -/

/-- ASCII case folding on one character (`String.prototype.toLowerCase`). -/
def charToLower (c : Char) : Char := c.toLower

/-- `s.toLowerCase()` (ASCII). -/
def strToLower (s : String) : String := ⟨s.data.map charToLower⟩

/-- Split on every occurrence of one separator character
(`s.split("x")` for a one-character separator). -/
def splitOnCharAux (sep : Char) : List Char → List String
  | [] => [""]
  | c :: rest =>
    let parts := splitOnCharAux sep rest
    if c = sep then "" :: parts
    else
      match parts with
      | [] => [String.mk [c]]
      | h :: t => String.mk (c :: h.data) :: t

def strSplitOnChar (sep : Char) (s : String) : List String :=
  splitOnCharAux sep s.data

/-- Split a character list at every whitespace character, keeping the empty
pieces produced by adjacent separators. -/
def splitEveryWs : List Char → List String
  | [] => [""]
  | c :: rest =>
    let parts := splitEveryWs rest
    if c.isWhitespace then "" :: parts
    else
      match parts with
      | [] => [String.mk [c]]
      | h :: t => String.mk (c :: h.data) :: t

/-- Drop the empty pieces that sit strictly between two separators, keeping
the final piece even when it is empty. -/
def dropInnerEmpties : List String → List String
  | [] => []
  | [x] => [x]
  | x :: rest => if x = "" then dropInnerEmpties rest else x :: dropInnerEmpties rest

/-- `line.split(/\s+/)`: maximal whitespace runs separate the pieces; a
leading (resp. trailing) run contributes one leading (resp. trailing) empty
piece. -/
def jsSplitWs (s : String) : List String :=
  match splitEveryWs s.data with
  | [] => [""]
  | x :: rest => x :: dropInnerEmpties rest

/-- `pat.isPrefixOf l` specialised to characters. -/
def charsHavePre : List Char → List Char → Bool
  | [], _ => true
  | _ :: _, [] => false
  | p :: ps, c :: cs => p = c && charsHavePre ps cs

/-- `s.replace(pat, repl)` with a *string* pattern: JavaScript replaces only
the first occurrence. -/
def replaceFirstAux (pat repl : List Char) : List Char → List Char
  | [] => []
  | c :: rest =>
    if charsHavePre pat (c :: rest) then repl ++ (c :: rest).drop pat.length
    else c :: replaceFirstAux pat repl rest

def replaceFirst (s pat repl : String) : String :=
  ⟨replaceFirstAux pat.data repl.data s.data⟩

/-- `s.startsWith(pat)`. -/
def strStartsWith (s pat : String) : Bool := charsHavePre pat.data s.data

/-- `s.endsWith(pat)`. -/
def strEndsWith (s pat : String) : Bool := charsHavePre pat.data.reverse s.data.reverse

/-- `s.trim()`. -/
def strTrim (s : String) : String :=
  ⟨((s.data.dropWhile Char.isWhitespace).reverse.dropWhile Char.isWhitespace).reverse⟩

/-- Node's `path.basename` for the file paths the scripts handle: the part
after the last `/`. -/
def basename (p : String) : String :=
  ((strSplitOnChar '/' p).getLast?).getD p

/-- `array.join(sep)`. -/
def joinSep (sep : String) : List String → String
  | [] => ""
  | [x] => x
  | x :: rest => x ++ sep ++ joinSep sep rest

/-! ## Data model

`ResourceContent` (test script) and `LearningResource` (`src/typse.ts`) share
one shape; the optional `links` object is embedded as its `Object.entries`
list (an absent object and an empty object behave identically everywhere the
sources consume it). -/

structure Introducer where
  github : Option String
  x : Option String
deriving Repr, DecidableEq

structure ResourceContent where
  name : String
  url : String
  type : String
  description : String
  topics : List String
  style : String
  pricing : String
  links : List (String × String)
  introducer : Option Introducer
deriving Repr, DecidableEq

abbrev LearningResource := ResourceContent

/-! ## URL Validation (`validateUrl`, `validateAllUrls` in the test script)

`fetch` and the WHATWG `new URL` parser are platform builtins; they are
abstracted as oracles.  A `fetch` call either yields a response (with its
`ok` flag and status), throws an `AbortError` (the timeout path), or throws
some other `Error` with a message.  The oracles take the timeout passed at
the call site (`CONFIG.urlTimeout`) as an argument. -/

/-- `CONFIG.urlTimeout` (milliseconds). -/
def urlTimeout : Nat := 10000

inductive FetchOutcome where
  | resp (ok : Bool) (status : Nat)
  | abortError
  | failure (message : String)
deriving Repr, DecidableEq

structure UrlCheckEnv where
  parsesAsUrl : String → Bool
  headReq : String → Nat → FetchOutcome
  getReq : String → Nat → FetchOutcome

structure UrlCheckResult where
  errors : List String
  warnings : List String
deriving Repr, DecidableEq

def httpWarning (url : String) : String :=
  "URL: \"" ++ url ++ "\" uses HTTP instead of HTTPS"

def formatError (url : String) : String :=
  "URL: \"" ++ url ++ "\" is not a valid URL format"

def statusError (url : String) (status : Nat) : String :=
  "URL: \"" ++ url ++ "\" returned status " ++ toString status

def timeoutError (url : String) : String :=
  "URL: \"" ++ url ++ "\" request timed out"

def notAccessibleError (url : String) (message : String) : String :=
  "URL: \"" ++ url ++ "\" is not accessible (" ++ message ++ ")"

/-- `validateUrl(url)`; `skipUrlCheck` is the `CONFIG.skipUrlCheck` flag read
inside the function.  A HEAD probe that yields a non-ok response triggers one
GET retry; a HEAD probe that throws is handled by the surrounding `catch`
without any retry. -/
def validateUrl (env : UrlCheckEnv) (skipUrlCheck : Bool) (url : String) :
    UrlCheckResult :=
  let warnings := if strStartsWith url "http://" then [httpWarning url] else []
  if ! env.parsesAsUrl url then
    { errors := [formatError url], warnings := warnings }
  else if skipUrlCheck then
    { errors := [], warnings := warnings }
  else
    match env.headReq url urlTimeout with
    | .resp true _ => { errors := [], warnings := warnings }
    | .resp false _ =>
      match env.getReq url urlTimeout with
      | .resp true _ => { errors := [], warnings := warnings }
      | .resp false status => { errors := [statusError url status], warnings := warnings }
      | .abortError => { errors := [timeoutError url], warnings := warnings }
      | .failure m => { errors := [notAccessibleError url m], warnings := warnings }
    | .abortError => { errors := [timeoutError url], warnings := warnings }
    | .failure m => { errors := [notAccessibleError url m], warnings := warnings }

/-- Re-label a link error or warning:
`error.replace("URL:", "URL (links.key):")`. -/
def relabelLink (key msg : String) : String :=
  replaceFirst msg "URL:" ("URL (links." ++ key ++ "):")

/-- `validateAllUrls(content)`: the main `url` first, then every truthy entry
of `links`, with messages re-labelled per link key. -/
def validateAllUrls (env : UrlCheckEnv) (skipUrlCheck : Bool)
    (content : ResourceContent) : UrlCheckResult :=
  let mainResult := validateUrl env skipUrlCheck content.url
  content.links.foldl
    (fun acc kv =>
      if kv.2 ≠ "" then
        let r := validateUrl env skipUrlCheck kv.2
        { errors := acc.errors ++ r.errors.map (relabelLink kv.1),
          warnings := acc.warnings ++ r.warnings.map (relabelLink kv.1) }
      else acc)
    mainResult

/-! ## Duplicate Detection (`checkDuplicates` in the test script) -/

/-- URL normalisation used for duplicate grouping:
`content.url.toLowerCase().replace(/\/$/, "")` (lowercase, then at most one
trailing slash removed). -/
def normalizeUrl (url : String) : String :=
  let lower := strToLower url
  if strEndsWith lower "/" then ⟨lower.data.dropLast⟩ else lower

def nameDupMessage (name : String) (others : List String) : String :=
  "Duplicate: Resource name \"" ++ name ++ "\" also exists in: " ++ joinSep ", " others

def urlDupMessage (url : String) (others : List String) : String :=
  "Duplicate: URL \"" ++ url ++ "\" also exists in: " ++ joinSep ", " others

/-- The single pass over `resources` that fills `nameMap` (keyed by
case-folded name) and `urlMap` (keyed by normalised URL). -/
def buildGroups (resources : List (String × ResourceContent)) :
    List (String × List String) × List (String × List String) :=
  resources.foldl
    (fun maps p =>
      (mapPush maps.1 (strToLower p.2.name) p.1,
       mapPush maps.2 (normalizeUrl p.2.url) p.1))
    ([], [])

/-- One reporting loop of `checkDuplicates`: for every grouping entry with
more than one member, append to each member's error list one message naming
the *other* members. -/
def reportGroup (msgFn : String → List String → String)
    (groups : List (String × List String)) (dupErrors : List (String × List String)) :
    List (String × List String) :=
  groups.foldl
    (fun acc g =>
      if g.2.length > 1 then
        g.2.foldl
          (fun acc file =>
            mapPush acc file (msgFn g.1 (g.2.filter (fun f => f ≠ file))))
          acc
      else acc)
    dupErrors

/-- `checkDuplicates(resources)`: grouping pass, then the name report loop,
then the URL report loop. -/
def checkDuplicates (resources : List (String × ResourceContent)) :
    List (String × List String) :=
  let maps := buildGroups resources
  reportGroup urlDupMessage maps.2 (reportGroup nameDupMessage maps.1 [])

/-! ## Validation Orchestrator (`validateFileName`, `validateJsonFile`,
`runTests` in the test script)

`Bun.file(path).json()` and the ajv-compiled schema validator are external;
they are abstracted as the oracles `readJson` (exception message or parsed
content) and `validateSchema` (the already-formatted `Schema: path message`
strings ajv produces for the content, empty list = schema-valid). -/

def isKebabChar (c : Char) : Bool :=
  ('a' ≤ c && c ≤ 'z') || ('0' ≤ c && c ≤ '9')

/-- The regex `^[a-z0-9]+(-[a-z0-9]+)*$`: non-empty lowercase-alphanumeric
groups separated by single hyphens. -/
def isKebabCase (s : String) : Bool :=
  (strSplitOnChar '-' s).all (fun part => part ≠ "" && part.data.all isKebabChar)

/-- `validateFileName(filePath)`. -/
def validateFileName (filePath : String) : List String :=
  let fileName := basename filePath
  let extErrors :=
    if ! strEndsWith fileName ".json" then
      ["FileName: File must have .json extension"]
    else []
  let nameWithoutExtension := replaceFirst fileName ".json" ""
  if ! isKebabCase nameWithoutExtension then
    extErrors ++
      ["FileName: \"" ++ fileName ++ "\" must be kebab-case (e.g., \"my-resource.json\")"]
  else extErrors

structure ValidationResult where
  file : String
  valid : Bool
  errors : Option (List String)
  warnings : Option (List String)
deriving Repr, DecidableEq

structure OrchestratorEnv where
  readJson : String → Except String ResourceContent
  validateSchema : ResourceContent → List String
  urlEnv : UrlCheckEnv

/-- `validateJsonFile(filePath, checkUrls)`; `skipUrlCheck` is the global
`CONFIG.skipUrlCheck` consulted by the inner `validateUrl` calls. -/
def validateJsonFile (env : OrchestratorEnv) (skipUrlCheck : Bool)
    (filePath : String) (checkUrls : Bool) :
    ValidationResult × Option ResourceContent :=
  let fileNameErrors := validateFileName filePath
  match env.readJson filePath with
  | .error msg =>
    ({ file := filePath, valid := false,
       errors := some ["JSON Parse Error: " ++ msg], warnings := none }, none)
  | .ok content =>
    let schemaErrors := env.validateSchema content
    let errors := fileNameErrors ++ schemaErrors
    if schemaErrors.length > 0 then
      ({ file := filePath, valid := false, errors := some errors, warnings := none },
       some content)
    else
      let urlResult :=
        if checkUrls then validateAllUrls env.urlEnv skipUrlCheck content
        else { errors := [], warnings := [] }
      let errors := errors ++ urlResult.errors
      let warnings := urlResult.warnings
      ({ file := filePath, valid := errors.isEmpty,
         errors := if errors.isEmpty then none else some errors,
         warnings := if warnings.isEmpty then none else some warnings },
       some content)

structure TestState where
  results : List ValidationResult
  resources : List (String × ResourceContent)
  passCount : Int
  failCount : Int
  warningCount : Int
deriving Repr, DecidableEq

def initialTestState : TestState :=
  { results := [], resources := [], passCount := 0, failCount := 0, warningCount := 0 }

/-- One iteration of the first (per-file) loop of `runTests`. -/
def firstPassStep (env : OrchestratorEnv) (skipUrlCheck : Bool)
    (st : TestState) (filePath : String) : TestState :=
  let rc := validateJsonFile env skipUrlCheck filePath (! skipUrlCheck)
  let results := st.results ++ [rc.1]
  let resources :=
    match rc.2 with
    | some c => mapSet st.resources filePath c
    | none => st.resources
  if rc.1.valid then
    { results := results, resources := resources,
      passCount := st.passCount + 1, failCount := st.failCount,
      warningCount :=
        if ((rc.1.warnings.getD []).length > 0) then st.warningCount + 1
        else st.warningCount }
  else
    { results := results, resources := resources,
      passCount := st.passCount, failCount := st.failCount + 1,
      warningCount := st.warningCount }

/-- The first (per-file) loop of `runTests`, started from an arbitrary state. -/
def firstPassFrom (env : OrchestratorEnv) (skipUrlCheck : Bool)
    (jsonFiles : List String) (st : TestState) : TestState :=
  jsonFiles.foldl (firstPassStep env skipUrlCheck) st

def firstPass (env : OrchestratorEnv) (skipUrlCheck : Bool)
    (jsonFiles : List String) : TestState :=
  firstPassFrom env skipUrlCheck jsonFiles initialTestState

/-- In-place invalidation of the result found by
`results.find((r) => r.file === filePath)`: only the first matching entry is
mutated. -/
def invalidateFirst (results : List ValidationResult) (filePath : String)
    (errs : List String) : List ValidationResult :=
  match results with
  | [] => []
  | r :: rest =>
    if r.file = filePath then { r with valid := false, errors := some errs } :: rest
    else r :: invalidateFirst rest filePath errs

/-- One iteration of the second (duplicate reclassification) loop of
`runTests`: when the flagged file's result is still valid, it is forced to
invalid, its error list is overwritten, and the counters are adjusted. -/
def secondPassStep (st : TestState) (p : String × List String) : TestState :=
  match st.results.find? (fun r => r.file = p.1) with
  | some r =>
    if r.valid then
      { st with results := invalidateFirst st.results p.1 p.2,
                passCount := st.passCount - 1, failCount := st.failCount + 1 }
    else st
  | none => st

/-- The second (duplicate reclassification) loop of `runTests`. -/
def secondPass (st : TestState) (dups : List (String × List String)) : TestState :=
  dups.foldl secondPassStep st

/-- The result-relevant core of `runTests()`: the per-file pass, then the
duplicate detector over every record whose JSON parsed, then the
reclassification loop. -/
def runTests (env : OrchestratorEnv) (skipUrlCheck : Bool)
    (jsonFiles : List String) : TestState :=
  let st := firstPass env skipUrlCheck jsonFiles
  secondPass st (checkDuplicates st.resources)

/-! ## Change-Set Resolver (`getGitDiff` in `src/detect-diff.ts`)

The `git` subprocesses and `JSON.parse` are abstracted as oracles:
`headContent p` models `git show HEAD:p`, `prevHeadContent p` models
`git show HEAD^:p` (`none` = the subprocess threw), and `parseJson` models
`JSON.parse` followed by the `.name` field access (`none` = the parse threw).
`getGitDiff` is applied to the textual stdout of
`git diff --name-status HEAD^ HEAD`. -/

structure DiffResult where
  added : List String
  deleted : List String
  modified : List String
deriving Repr, DecidableEq

structure GitEnv where
  headContent : String → Option String
  prevHeadContent : String → Option String
  parseJson : String → Option ResourceContent

/-- `getFileContentFromHead` followed by `JSON.parse(content).name`. -/
def nameFromHead (env : GitEnv) (filePath : String) : Option String :=
  (env.headContent filePath >>= env.parseJson).map (fun c => c.name)

/-- `getFileContentFromPreviousHead` followed by `JSON.parse(content).name`. -/
def nameFromPrevHead (env : GitEnv) (filePath : String) : Option String :=
  (env.prevHeadContent filePath >>= env.parseJson).map (fun c => c.name)

/-- `stdout.split("\n").filter((line) => line.trim() !== "")`. -/
def gitDiffLines (stdout : String) : List String :=
  (strSplitOnChar '\n' stdout).filter (fun l => strTrim l ≠ "")

/-- One iteration of the loop in `getGitDiff`: destructure
`line.split(/\s+/)` into status and path, filter on the corpus directory and
extension, and append the record name extracted from the appropriate
snapshot; any oracle failure (the `catch`) skips the line. -/
def gitDiffStep (env : GitEnv) (acc : DiffResult) (line : String) : DiffResult :=
  let parts := jsSplitWs line
  let status := (parts.get? 0).getD ""
  match parts.get? 1 with
  | some filePath =>
    if filePath ≠ "" && strStartsWith filePath "sites/" && strEndsWith filePath ".json" then
      if status = "A" then
        match nameFromHead env filePath with
        | some n => { acc with added := acc.added ++ [n] }
        | none => acc
      else if status = "D" then
        match nameFromPrevHead env filePath with
        | some n => { acc with deleted := acc.deleted ++ [n] }
        | none => acc
      else if status = "M" then
        match nameFromHead env filePath with
        | some n => { acc with modified := acc.modified ++ [n] }
        | none => acc
      else acc
    else acc
  | none => acc

def getGitDiff (env : GitEnv) (stdout : String) : DiffResult :=
  (gitDiffLines stdout).foldl (gitDiffStep env)
    { added := [], deleted := [], modified := [] }

/-! ## Sync Reconciler (`syncToNotion` in the deletions-first sync script)

The Notion client calls are abstracted: `loadResource` models
`Bun.file(path).json()` (`none` = it threw), and `opFails` tells whether a
given remote call (`createPage` / `updatePage` / `deletePage`) throws.  The
`ops` field of the outcome records every remote call attempted, in order;
`warnings` records the `Page not found for deletion` log lines. -/

inductive SyncOp where
  | create (resource : LearningResource)
  | update (pageId : String) (resource : LearningResource)
  | archive (pageId : String)
deriving Repr, DecidableEq

structure SyncEnv where
  loadResource : String → Option LearningResource
  opFails : SyncOp → Bool

structure SyncOutcome where
  ops : List SyncOp
  created : Int
  updated : Int
  deleted : Int
  errors : Int
  warnings : List String
deriving Repr, DecidableEq

def initialSyncOutcome : SyncOutcome :=
  { ops := [], created := 0, updated := 0, deleted := 0, errors := 0, warnings := [] }

def pageNotFoundWarning (name : String) : String :=
  "Page not found for deletion: " ++ name

/-- Step of the first reconciler loop (over `DIFFS.deleted`): look the name
up in the Remote Index; a truthy id is archived (counted as deleted on
success, as an error when the call throws), otherwise only a warning is
logged. -/
def processDeletedStep (env : SyncEnv) (existingPages : List (String × String))
    (st : SyncOutcome) (deletedName : String) : SyncOutcome :=
  match mapGet existingPages deletedName with
  | some pageId =>
    if pageId = "" then
      { st with warnings := st.warnings ++ [pageNotFoundWarning deletedName] }
    else
      let op := SyncOp.archive pageId
      if env.opFails op then
        { st with ops := st.ops ++ [op], errors := st.errors + 1 }
      else
        { st with ops := st.ops ++ [op], deleted := st.deleted + 1 }
  | none =>
    { st with warnings := st.warnings ++ [pageNotFoundWarning deletedName] }

def processDeleted (env : SyncEnv) (existingPages : List (String × String))
    (deletedNames : List String) (st : SyncOutcome) : SyncOutcome :=
  deletedNames.foldl (processDeletedStep env existingPages) st

/-- Step of the second reconciler loop (over the corpus files): a load
failure is counted as an error; an `added` name is created unconditionally;
a `modified` name with a truthy remote id is updated; anything else is
skipped. -/
def processCorpusStep (env : SyncEnv) (existingPages : List (String × String))
    (diffs : DiffResult) (st : SyncOutcome) (filePath : String) : SyncOutcome :=
  match env.loadResource filePath with
  | none => { st with errors := st.errors + 1 }
  | some resource =>
    if diffs.added.contains resource.name then
      let op := SyncOp.create resource
      if env.opFails op then
        { st with ops := st.ops ++ [op], errors := st.errors + 1 }
      else
        { st with ops := st.ops ++ [op], created := st.created + 1 }
    else
      match mapGet existingPages resource.name with
      | some pageId =>
        if diffs.modified.contains resource.name && pageId ≠ "" then
          let op := SyncOp.update pageId resource
          if env.opFails op then
            { st with ops := st.ops ++ [op], errors := st.errors + 1 }
          else
            { st with ops := st.ops ++ [op], updated := st.updated + 1 }
        else st
      | none => st

def processCorpus (env : SyncEnv) (existingPages : List (String × String))
    (diffs : DiffResult) (jsonFiles : List String) (st : SyncOutcome) : SyncOutcome :=
  jsonFiles.foldl (processCorpusStep env existingPages diffs) st

/-- The operation-relevant core of `syncToNotion()`: the `deleted` names are
processed first, then the corpus scan. -/
def syncToNotion (env : SyncEnv) (jsonFiles : List String)
    (existingPages : List (String × String)) (diffs : DiffResult) : SyncOutcome :=
  processCorpus env existingPages diffs jsonFiles
    (processDeleted env existingPages diffs.deleted initialSyncOutcome)

/-! ## Remote Index (`getExistingPages` in `src/notion.ts`)

The paginated query is modelled by the concatenation, in pagination order, of
the `results` arrays of all fetched pages.  Only the fields the source
inspects on a page's `Name` property are modelled. -/

structure TitleItem where
  plain_text : Option String
deriving Repr, DecidableEq

structure NamePropertyShape where
  type : Option String
  title : Option (List TitleItem)
deriving Repr, DecidableEq

structure NotionPage where
  id : String
  properties : List (String × NamePropertyShape)
deriving Repr, DecidableEq

/-- The per-page filter of `getExistingPages`: the page contributes its name
exactly when its `Name` property has type `"title"`, a non-empty `title`
array, and a first element with truthy (present, non-empty) `plain_text`. -/
def pageName (page : NotionPage) : Option String :=
  match mapGet page.properties "Name" with
  | none => none
  | some nameProperty =>
    match nameProperty.type, nameProperty.title with
    | some t, some titleArr =>
      if t = "title" && titleArr.length > 0 then
        match titleArr.head? with
        | some firstTitle =>
          match firstTitle.plain_text with
          | some pt => if pt = "" then none else some pt
          | none => none
        | none => none
      else none
    | _, _ => none

def getExistingPages (pages : List NotionPage) : List (String × String) :=
  pages.foldl
    (fun m page =>
      match pageName page with
      | some name => mapSet m name page.id
      | none => m)
    []

/-! ## Shared sample data for concrete instances -/

def sampleRecord : ResourceContent :=
  { name := "Learn X", url := "https://a.com", type := "learning",
    description := "d", topics := ["t"], style := "reading",
    pricing := "free", links := [], introducer := none }

/-! ## Claim C8: the URL-check bypass flag -/

def c8BadParseEnv : UrlCheckEnv :=
  { parsesAsUrl := fun _ => false,
    headReq := fun _ _ => .resp true 200,
    getReq := fun _ _ => .resp true 200 }

/-- C8 (counterexample): with the bypass flag active, a URL that fails the
`new URL` parse still produces an error, so the check does not return "no
error for every URL, regardless of reachability". -/
theorem C8_counterexample :
    (validateUrl c8BadParseEnv true "not a url").errors = [formatError "not a url"] ∧
    (validateUrl c8BadParseEnv true "not a url").errors ≠ [] := by
  decide

/-- C8 (amended): when the bypass flag is active, every URL accepted by the
URL parser yields no error, and the outcome is independent of the network
oracles — no network check occurs.  Malformed URLs still produce a format
error. -/
theorem C8_amended (env env' : UrlCheckEnv) (url : String)
    (hparse : env.parsesAsUrl url = true)
    (hsame : env'.parsesAsUrl url = env.parsesAsUrl url) :
    (validateUrl env true url).errors = [] ∧
    validateUrl env true url = validateUrl env' true url := by
  constructor <;> simp [validateUrl, hparse, hsame]

def c8NetAEnv : UrlCheckEnv :=
  { parsesAsUrl := fun _ => true,
    headReq := fun _ _ => .resp false 500,
    getReq := fun _ _ => .abortError }

def c8NetBEnv : UrlCheckEnv :=
  { parsesAsUrl := fun _ => true,
    headReq := fun _ _ => .failure "refused",
    getReq := fun _ _ => .resp true 200 }

/-- C8 (witness): the amended claim at a concrete URL, with two concrete
network oracles that would disagree if any probe were issued. -/
theorem C8_witness :
    (validateUrl c8NetAEnv true "https://example.com").errors = [] ∧
    validateUrl c8NetAEnv true "https://example.com" =
      validateUrl c8NetBEnv true "https://example.com" :=
  C8_amended c8NetAEnv c8NetBEnv "https://example.com" rfl rfl

/-! ## Claim C9: the liveness probe, retry, and error policy -/

theorem timeoutError_ne_notAccessibleError (url m : String) :
    timeoutError url ≠ notAccessibleError url m := by
  intro h
  have hd := congrArg String.data h
  simp only [timeoutError, notAccessibleError, String.data_append,
    List.append_assoc] at hd
  have h2 := List.append_cancel_left (List.append_cancel_left hd)
  have h3 := congrArg List.getLast? h2
  rw [List.getLast?_append, List.getLast?_append] at h3
  have hC : ((")" : String).data).getLast? = some ')' := by decide
  rw [hC] at h3
  simp [Option.or] at h3

def c9HeadThrowsEnv : UrlCheckEnv :=
  { parsesAsUrl := fun _ => true,
    headReq := fun _ _ => .failure "socket hang up",
    getReq := fun _ _ => .resp true 200 }

/-- C9 (counterexample): when the HEAD probe throws a transport error the
code reports an error immediately, although the GET oracle would succeed:
there is no GET retry after a *thrown* probe, so "if that probe fails ... it
retries once with GET" and "an error is produced only when both attempts
fail" are both violated. -/
theorem C9_counterexample :
    c9HeadThrowsEnv.getReq "https://example.com" urlTimeout = .resp true 200 ∧
    (validateUrl c9HeadThrowsEnv false "https://example.com").errors =
      [notAccessibleError "https://example.com" "socket hang up"] := by
  decide

/-- C9 (amended): for a URL accepted by the parser, with liveness checking
on, the checker issues the HEAD probe with the 10-second timeout; a HEAD
response that is not ok triggers exactly one GET retry (error only when the
GET also yields a non-ok response, times out, or throws); a HEAD timeout or
transport error is reported immediately without any retry; and a timeout is
reported distinctly from other transport errors. -/
theorem C9_amended (env : UrlCheckEnv) (url : String)
    (hparse : env.parsesAsUrl url = true) :
    (∀ s, env.headReq url urlTimeout = .resp true s →
       (validateUrl env false url).errors = []) ∧
    (∀ s, env.headReq url urlTimeout = .resp false s →
       (∀ s2, env.getReq url urlTimeout = .resp true s2 →
          (validateUrl env false url).errors = []) ∧
       (∀ s2, env.getReq url urlTimeout = .resp false s2 →
          (validateUrl env false url).errors = [statusError url s2]) ∧
       (env.getReq url urlTimeout = .abortError →
          (validateUrl env false url).errors = [timeoutError url]) ∧
       (∀ m, env.getReq url urlTimeout = .failure m →
          (validateUrl env false url).errors = [notAccessibleError url m])) ∧
    (env.headReq url urlTimeout = .abortError →
       (validateUrl env false url).errors = [timeoutError url]) ∧
    (∀ m, env.headReq url urlTimeout = .failure m →
       (validateUrl env false url).errors = [notAccessibleError url m]) ∧
    (∀ m, timeoutError url ≠ notAccessibleError url m) := by
  refine ⟨?_, ?_, ?_, ?_, fun m => timeoutError_ne_notAccessibleError url m⟩
  · intro s h; simp [validateUrl, hparse, h]
  · intro s h
    refine ⟨?_, ?_, ?_, ?_⟩
    · intro s2 h2; simp [validateUrl, hparse, h, h2]
    · intro s2 h2; simp [validateUrl, hparse, h, h2]
    · intro h2; simp [validateUrl, hparse, h, h2]
    · intro m h2; simp [validateUrl, hparse, h, h2]
  · intro h; simp [validateUrl, hparse, h]
  · intro m h; simp [validateUrl, hparse, h]

def c9RetryEnv : UrlCheckEnv :=
  { parsesAsUrl := fun _ => true,
    headReq := fun _ _ => .resp false 405,
    getReq := fun _ _ => .resp true 200 }

/-- C9 (witness): the amended claim at a concrete URL whose HEAD probe
returns a failing status and whose GET retry succeeds. -/
theorem C9_witness :
    (validateUrl c9RetryEnv false "https://example.com").errors = [] :=
  ((C9_amended c9RetryEnv "https://example.com" rfl).2.1 405 rfl).1 200 rfl

/-! ## Claims C2 and C3: the Sync Reconciler

Characterisations of the two reconciler loops, stated against per-name /
per-file contribution functions. -/

/-- Remote calls attempted for one corpus file. -/
def corpusOpOf (env : SyncEnv) (existingPages : List (String × String))
    (diffs : DiffResult) (filePath : String) : List SyncOp :=
  match env.loadResource filePath with
  | none => []
  | some resource =>
    if diffs.added.contains resource.name then [SyncOp.create resource]
    else
      match mapGet existingPages resource.name with
      | some pageId =>
        if diffs.modified.contains resource.name && pageId ≠ "" then
          [SyncOp.update pageId resource]
        else []
      | none => []

def corpusOps (env : SyncEnv) (existingPages : List (String × String))
    (diffs : DiffResult) : List String → List SyncOp
  | [] => []
  | f :: rest => corpusOpOf env existingPages diffs f ++ corpusOps env existingPages diffs rest

/-- Remote call attempted for one deleted name: an archive exactly when the
Remote Index yields a truthy id. -/
def deletedOpOf (existingPages : List (String × String)) (name : String) : List SyncOp :=
  match mapGet existingPages name with
  | some pageId => if pageId = "" then [] else [SyncOp.archive pageId]
  | none => []

def deletedOps (existingPages : List (String × String)) : List String → List SyncOp
  | [] => []
  | n :: rest => deletedOpOf existingPages n ++ deletedOps existingPages rest

/-- Warning lines produced for one deleted name. -/
def notFoundWarnOf (existingPages : List (String × String)) (n : String) : List String :=
  match mapGet existingPages n with
  | some pageId => if pageId = "" then [pageNotFoundWarning n] else []
  | none => [pageNotFoundWarning n]

def notFoundWarnings (existingPages : List (String × String)) : List String → List String
  | [] => []
  | n :: rest => notFoundWarnOf existingPages n ++ notFoundWarnings existingPages rest

/-- Contribution of one deleted name to the `deleted` counter. -/
def archivedCountOf (env : SyncEnv) (existingPages : List (String × String))
    (n : String) : Int :=
  match mapGet existingPages n with
  | some pageId => if pageId ≠ "" && ! env.opFails (SyncOp.archive pageId) then 1 else 0
  | none => 0

def archivedCount (env : SyncEnv) (existingPages : List (String × String)) :
    List String → Int
  | [] => 0
  | n :: rest => archivedCountOf env existingPages n + archivedCount env existingPages rest

/-- Contribution of one deleted name to the `errors` counter. -/
def archiveErrorCountOf (env : SyncEnv) (existingPages : List (String × String))
    (n : String) : Int :=
  match mapGet existingPages n with
  | some pageId => if pageId ≠ "" && env.opFails (SyncOp.archive pageId) then 1 else 0
  | none => 0

def archiveErrorCount (env : SyncEnv) (existingPages : List (String × String)) :
    List String → Int
  | [] => 0
  | n :: rest =>
    archiveErrorCountOf env existingPages n + archiveErrorCount env existingPages rest

theorem processDeletedStep_eq (env : SyncEnv) (existingPages : List (String × String))
    (st : SyncOutcome) (n : String) :
    processDeletedStep env existingPages st n =
      { st with ops := st.ops ++ deletedOpOf existingPages n,
                warnings := st.warnings ++ notFoundWarnOf existingPages n,
                deleted := st.deleted + archivedCountOf env existingPages n,
                errors := st.errors + archiveErrorCountOf env existingPages n } := by
  rcases h : mapGet existingPages n with _ | pageId
  · simp [processDeletedStep, deletedOpOf, notFoundWarnOf, archivedCountOf,
      archiveErrorCountOf, h]
  · by_cases hid : pageId = "" <;>
      by_cases hf : env.opFails (SyncOp.archive pageId) <;>
        simp [processDeletedStep, deletedOpOf, notFoundWarnOf, archivedCountOf,
          archiveErrorCountOf, h, hid, hf]

theorem processDeleted_spec (env : SyncEnv) (existingPages : List (String × String)) :
    ∀ (names : List String) (st : SyncOutcome),
      (processDeleted env existingPages names st).ops =
        st.ops ++ deletedOps existingPages names ∧
      (processDeleted env existingPages names st).warnings =
        st.warnings ++ notFoundWarnings existingPages names ∧
      (processDeleted env existingPages names st).deleted =
        st.deleted + archivedCount env existingPages names ∧
      (processDeleted env existingPages names st).errors =
        st.errors + archiveErrorCount env existingPages names := by
  intro names
  induction names with
  | nil =>
    intro st
    simp [processDeleted, deletedOps, notFoundWarnings, archivedCount, archiveErrorCount]
  | cons n rest ih =>
    intro st
    have hfold : processDeleted env existingPages (n :: rest) st =
        processDeleted env existingPages rest (processDeletedStep env existingPages st n) := rfl
    obtain ⟨ih1, ih2, ih3, ih4⟩ := ih (processDeletedStep env existingPages st n)
    rw [hfold] at *
    refine ⟨?_, ?_, ?_, ?_⟩
    · rw [ih1, processDeletedStep_eq]
      simp [deletedOps]
    · rw [ih2, processDeletedStep_eq]
      simp [notFoundWarnings]
    · rw [ih3, processDeletedStep_eq]
      simp [archivedCount, add_assoc]
    · rw [ih4, processDeletedStep_eq]
      simp [archiveErrorCount, add_assoc]

theorem processCorpusStep_ops (env : SyncEnv) (existingPages : List (String × String))
    (diffs : DiffResult) (st : SyncOutcome) (f : String) :
    (processCorpusStep env existingPages diffs st f).ops =
      st.ops ++ corpusOpOf env existingPages diffs f := by
  rcases h : env.loadResource f with _ | r
  · simp [processCorpusStep, corpusOpOf, h]
  · by_cases hA : r.name ∈ diffs.added
    · by_cases hf : env.opFails (SyncOp.create r) <;>
        simp [processCorpusStep, corpusOpOf, h, hA, hf]
    · rcases hG : mapGet existingPages r.name with _ | pageId
      · simp [processCorpusStep, corpusOpOf, h, hA, hG]
      · by_cases hM : r.name ∈ diffs.modified ∧ pageId ≠ ""
        · by_cases hf : env.opFails (SyncOp.update pageId r) <;>
            simp [processCorpusStep, corpusOpOf, h, hA, hG, hM, hf]
        · simp [processCorpusStep, corpusOpOf, h, hA, hG, hM]

theorem processCorpus_ops (env : SyncEnv) (existingPages : List (String × String))
    (diffs : DiffResult) :
    ∀ (files : List String) (st : SyncOutcome),
      (processCorpus env existingPages diffs files st).ops =
        st.ops ++ corpusOps env existingPages diffs files := by
  intro files
  induction files with
  | nil => intro st; simp [processCorpus, corpusOps]
  | cons f rest ih =>
    intro st
    have hfold : processCorpus env existingPages diffs (f :: rest) st =
        processCorpus env existingPages diffs rest
          (processCorpusStep env existingPages diffs st f) := rfl
    rw [hfold, ih, processCorpusStep_ops]
    simp [corpusOps]

theorem processCorpusStep_empty_diff (env : SyncEnv)
    (existingPages : List (String × String)) (st : SyncOutcome) (f : String) :
    (processCorpusStep env existingPages { added := [], deleted := [], modified := [] } st f).ops = st.ops ∧
    (processCorpusStep env existingPages { added := [], deleted := [], modified := [] } st f).created = st.created ∧
    (processCorpusStep env existingPages { added := [], deleted := [], modified := [] } st f).updated = st.updated ∧
    (processCorpusStep env existingPages { added := [], deleted := [], modified := [] } st f).deleted = st.deleted := by
  rcases h : env.loadResource f with _ | r
  · simp [processCorpusStep, h]
  · rcases hG : mapGet existingPages r.name with _ | pageId <;>
      simp [processCorpusStep, h, hG, List.contains]

theorem processCorpus_empty_diff (env : SyncEnv) (existingPages : List (String × String)) :
    ∀ (files : List String) (st : SyncOutcome),
      (processCorpus env existingPages { added := [], deleted := [], modified := [] } files st).ops = st.ops ∧
      (processCorpus env existingPages { added := [], deleted := [], modified := [] } files st).created = st.created ∧
      (processCorpus env existingPages { added := [], deleted := [], modified := [] } files st).updated = st.updated ∧
      (processCorpus env existingPages { added := [], deleted := [], modified := [] } files st).deleted = st.deleted := by
  intro files
  induction files with
  | nil => intro st; simp [processCorpus]
  | cons f rest ih =>
    intro st
    have hfold : processCorpus env existingPages { added := [], deleted := [], modified := [] } (f :: rest) st =
        processCorpus env existingPages { added := [], deleted := [], modified := [] } rest
          (processCorpusStep env existingPages { added := [], deleted := [], modified := [] } st f) := rfl
    obtain ⟨ih1, ih2, ih3, ih4⟩ :=
      ih (processCorpusStep env existingPages { added := [], deleted := [], modified := [] } st f)
    obtain ⟨hs1, hs2, hs3, hs4⟩ :=
      processCorpusStep_empty_diff env existingPages st f
    rw [hfold]
    exact ⟨by rw [ih1, hs1], by rw [ih2, hs2], by rw [ih3, hs3], by rw [ih4, hs4]⟩

/-- C2 (amended): the reconciler is a deterministic function of the
Change-Set, Remote Index, and corpus, so a second run on identical inputs
repeats the first run's operations rather than performing zero; it performs
zero create/update/archive operations when the Change-Set is empty — then
every corpus record falls into the unchanged, skip branch. -/
theorem C2_amended (env : SyncEnv) (jsonFiles : List String)
    (existingPages : List (String × String)) :
    (syncToNotion env jsonFiles existingPages { added := [], deleted := [], modified := [] }).ops = [] ∧
    (syncToNotion env jsonFiles existingPages { added := [], deleted := [], modified := [] }).created = 0 ∧
    (syncToNotion env jsonFiles existingPages { added := [], deleted := [], modified := [] }).updated = 0 ∧
    (syncToNotion env jsonFiles existingPages { added := [], deleted := [], modified := [] }).deleted = 0 := by
  have h := processCorpus_empty_diff env existingPages jsonFiles initialSyncOutcome
  have hsync : syncToNotion env jsonFiles existingPages { added := [], deleted := [], modified := [] } =
      processCorpus env existingPages { added := [], deleted := [], modified := [] } jsonFiles
        initialSyncOutcome := rfl
  rw [hsync]
  simpa [initialSyncOutcome] using h

def c2Resource : ResourceContent := { sampleRecord with name := "Foo" }

def c2Env : SyncEnv :=
  { loadResource := fun fp => if fp = "sites/foo.json" then some c2Resource else none,
    opFails := fun _ => false }

def c2Diff : DiffResult := { added := ["Foo"], deleted := [], modified := [] }

/-- C2 (counterexample): with a fixed non-empty Change-Set, a fixed Remote
Index, and a fixed corpus, every run — in particular the second run on
identical inputs — performs the same create operation, not zero
operations. -/
theorem C2_counterexample :
    (syncToNotion c2Env ["sites/foo.json"] [] c2Diff).ops = [SyncOp.create c2Resource] ∧
    (syncToNotion c2Env ["sites/foo.json"] [] c2Diff).ops ≠ [] := by
  decide

/-- C3: the reconciler processes the deleted names first — their archive
operations form the prefix of the operation sequence, before any corpus-scan
operation — and, for any deleted-name list, an archive call is attempted
exactly for the names whose Remote Index lookup yields a truthy id (counted
as deleted when the call succeeds), while a name with no Remote Index entry
contributes exactly a `Page not found for deletion` warning, no operation,
and no error-count increment (the error count grows only with failing
archive calls). -/
theorem C3_deleted_first (env : SyncEnv) (jsonFiles : List String)
    (existingPages : List (String × String)) (diffs : DiffResult) :
    (syncToNotion env jsonFiles existingPages diffs).ops =
      deletedOps existingPages diffs.deleted ++
        corpusOps env existingPages diffs jsonFiles ∧
    (∀ names st, (processDeleted env existingPages names st).ops =
        st.ops ++ deletedOps existingPages names) ∧
    (∀ names st, (processDeleted env existingPages names st).warnings =
        st.warnings ++ notFoundWarnings existingPages names) ∧
    (∀ names st, (processDeleted env existingPages names st).deleted =
        st.deleted + archivedCount env existingPages names) ∧
    (∀ names st, (processDeleted env existingPages names st).errors =
        st.errors + archiveErrorCount env existingPages names) := by
  refine ⟨?_, fun names st => (processDeleted_spec env existingPages names st).1,
    fun names st => (processDeleted_spec env existingPages names st).2.1,
    fun names st => (processDeleted_spec env existingPages names st).2.2.1,
    fun names st => (processDeleted_spec env existingPages names st).2.2.2⟩
  have hsync : syncToNotion env jsonFiles existingPages diffs =
      processCorpus env existingPages diffs jsonFiles
        (processDeleted env existingPages diffs.deleted initialSyncOutcome) := rfl
  rw [hsync, processCorpus_ops,
    (processDeleted_spec env existingPages diffs.deleted initialSyncOutcome).1]
  simp [initialSyncOutcome]

/-! ## Claims C4 and C5: the Change-Set Resolver -/

/-- A line accepted by the resolver: it destructures into a status and a
truthy path under `sites/` with the `.json` extension. -/
def acceptsPath (line : String) : Option (String × String) :=
  let parts := jsSplitWs line
  match parts.get? 1 with
  | some filePath =>
    if filePath ≠ "" && strStartsWith filePath "sites/" && strEndsWith filePath ".json" then
      some ((parts.get? 0).getD "", filePath)
    else none
  | none => none

/-- Name contributed by a line to `added` (status `A`, current snapshot). -/
def addedNameOf (env : GitEnv) (line : String) : Option String :=
  match acceptsPath line with
  | some (status, fp) => if status = "A" then nameFromHead env fp else none
  | none => none

/-- Name contributed by a line to `deleted` (status `D`, previous snapshot). -/
def deletedNameOf (env : GitEnv) (line : String) : Option String :=
  match acceptsPath line with
  | some (status, fp) =>
    if status = "A" then none
    else if status = "D" then nameFromPrevHead env fp else none
  | none => none

/-- Name contributed by a line to `modified` (status `M`, current snapshot). -/
def modifiedNameOf (env : GitEnv) (line : String) : Option String :=
  match acceptsPath line with
  | some (status, fp) =>
    if status = "A" then none
    else if status = "D" then none
    else if status = "M" then nameFromHead env fp else none
  | none => none

/-- The Change-Set as the spec describes it: per-status `filterMap`s over
the non-blank diff lines, reading `added`/`modified` names from the current
snapshot and `deleted` names from the previous one, skipping every line
whose read or parse fails. -/
def changeSetSpec (env : GitEnv) (stdout : String) : DiffResult :=
  { added := (gitDiffLines stdout).filterMap (addedNameOf env),
    deleted := (gitDiffLines stdout).filterMap (deletedNameOf env),
    modified := (gitDiffLines stdout).filterMap (modifiedNameOf env) }

theorem gitDiffStep_eq (env : GitEnv) (acc : DiffResult) (line : String) :
    gitDiffStep env acc line =
      { added := acc.added ++ (addedNameOf env line).toList,
        deleted := acc.deleted ++ (deletedNameOf env line).toList,
        modified := acc.modified ++ (modifiedNameOf env line).toList } := by
  rcases hfp : (jsSplitWs line)[1]? with _ | fp
  · simp [gitDiffStep, addedNameOf, deletedNameOf, modifiedNameOf, acceptsPath, hfp]
  · by_cases h1 : fp = ""
    · simp [gitDiffStep, addedNameOf, deletedNameOf, modifiedNameOf, acceptsPath, hfp, h1]
    · by_cases h2 : strStartsWith fp "sites/"
      · by_cases h3 : strEndsWith fp ".json"
        · by_cases hA : ((jsSplitWs line)[0]?).getD "" = "A"
          · rcases hn : nameFromHead env fp with _ | n <;>
              simp [gitDiffStep, addedNameOf, deletedNameOf, modifiedNameOf, acceptsPath,
                hfp, h1, h2, h3, hA, hn]
          · by_cases hD : ((jsSplitWs line)[0]?).getD "" = "D"
            · rcases hn : nameFromPrevHead env fp with _ | n <;>
                simp [gitDiffStep, addedNameOf, deletedNameOf, modifiedNameOf, acceptsPath,
                  hfp, h1, h2, h3, hA, hD, hn]
            · by_cases hM : ((jsSplitWs line)[0]?).getD "" = "M"
              · rcases hn : nameFromHead env fp with _ | n <;>
                  simp [gitDiffStep, addedNameOf, deletedNameOf, modifiedNameOf, acceptsPath,
                    hfp, h1, h2, h3, hA, hD, hM, hn]
              · simp [gitDiffStep, addedNameOf, deletedNameOf, modifiedNameOf, acceptsPath,
                  hfp, h1, h2, h3, hA, hD, hM]
        · simp [gitDiffStep, addedNameOf, deletedNameOf, modifiedNameOf, acceptsPath,
            hfp, h1, h2, h3]
      · simp [gitDiffStep, addedNameOf, deletedNameOf, modifiedNameOf, acceptsPath,
          hfp, h1, h2]

theorem getGitDiff_foldl (env : GitEnv) :
    ∀ (lines : List String) (acc : DiffResult),
      lines.foldl (gitDiffStep env) acc =
        { added := acc.added ++ lines.filterMap (addedNameOf env),
          deleted := acc.deleted ++ lines.filterMap (deletedNameOf env),
          modified := acc.modified ++ lines.filterMap (modifiedNameOf env) } := by
  intro lines
  induction lines with
  | nil => intro acc; simp
  | cons l rest ih =>
    intro acc
    rw [List.foldl_cons, ih, gitDiffStep_eq]
    rcases hA : addedNameOf env l with _ | a <;>
      rcases hD : deletedNameOf env l with _ | d <;>
        rcases hM : modifiedNameOf env l with _ | m <;>
          simp [List.filterMap_cons, hA, hD, hM]

/-- Pairwise disjointness of the three Change-Set lists, read as sets. -/
def diffPairwiseDisjoint (d : DiffResult) : Prop :=
  (∀ x ∈ d.added, x ∉ d.modified) ∧ (∀ x ∈ d.added, x ∉ d.deleted) ∧
    (∀ x ∈ d.modified, x ∉ d.deleted)

instance (d : DiffResult) : Decidable (diffPairwiseDisjoint d) := by
  unfold diffPairwiseDisjoint; infer_instance

def c4Env : GitEnv :=
  { headContent := fun fp => if fp = "sites/a.json" then some "content-a" else none,
    prevHeadContent := fun fp => if fp = "sites/b.json" then some "content-b" else none,
    parseJson := fun s =>
      if s = "content-a" || s = "content-b" then
        some { sampleRecord with name := "X" } else none }

/-- C4 (counterexample): one revision pair adds `sites/a.json` and deletes
`sites/b.json`, both parsing to record name `"X"`; the resolver then returns
`"X"` both in `added` and in `deleted`, so the three returned lists are not
pairwise disjoint. -/
theorem C4_counterexample :
    (getGitDiff c4Env "A\tsites/a.json\nD\tsites/b.json").added = ["X"] ∧
    (getGitDiff c4Env "A\tsites/a.json\nD\tsites/b.json").deleted = ["X"] ∧
    ¬ diffPairwiseDisjoint (getGitDiff c4Env "A\tsites/a.json\nD\tsites/b.json") := by
  decide

/-- C4 (amended): each accepted diff line contributes its record name to
exactly one of the three lists (selected by its status), so the lists are
pairwise disjoint whenever all of the extracted record names are distinct;
two different changed paths carrying an equal record name can break the
disjointness. -/
theorem C4_amended (env : GitEnv) (stdout : String)
    (h : ((getGitDiff env stdout).added ++ ((getGitDiff env stdout).modified ++
        (getGitDiff env stdout).deleted)).Nodup) :
    diffPairwiseDisjoint (getGitDiff env stdout) := by
  rcases List.nodup_append.mp h with ⟨h1, h23, hd1⟩
  rcases List.nodup_append.mp h23 with ⟨h2, h3, hd23⟩
  refine ⟨?_, ?_, ?_⟩
  · intro x hx hxm
    exact hd1 hx (List.mem_append_left _ hxm)
  · intro x hx hxd
    exact hd1 hx (List.mem_append_right _ hxd)
  · intro x hx hxd
    exact hd23 hx hxd

def c4FooEnv : GitEnv :=
  { headContent := fun fp => if fp = "sites/foo.json" then some "foo-content" else none,
    prevHeadContent := fun _ => none,
    parseJson := fun s =>
      if s = "foo-content" then some { sampleRecord with name := "Foo" } else none }

/-- C4 (witness): the amended claim at a concrete one-line diff whose
extracted names are distinct. -/
theorem C4_witness : diffPairwiseDisjoint (getGitDiff c4FooEnv "A\tsites/foo.json") :=
  C4_amended c4FooEnv "A\tsites/foo.json" (by decide)

/-- C5: the resolver reads `A` and `M` paths from the current snapshot and
`D` paths from the previous snapshot, appending the extracted names in line
order, and a failed read or parse skips only that path (the per-status
`filterMap` characterisation); concretely, a revision pair with exactly one
added file `sites/foo.json` whose record name is `"Foo"` resolves to
`added = ["Foo"]`, `modified = []`, `deleted = []`. -/
theorem C5_changeset_resolver (env : GitEnv) (stdout : String) :
    getGitDiff env stdout = changeSetSpec env stdout ∧
    getGitDiff c4FooEnv "A\tsites/foo.json" =
      { added := ["Foo"], deleted := [], modified := [] } := by
  constructor
  · unfold getGitDiff changeSetSpec
    rw [getGitDiff_foldl]
    simp
  · decide

/-! ## Claim C10: the Remote Index built by `getExistingPages` -/

/-- The qualifying pages in pagination order, each with its extracted name. -/
def qualifiedEntries (pages : List NotionPage) : List (String × String) :=
  pages.filterMap (fun p => (pageName p).map (fun n => (n, p.id)))

/-- The `getExistingPages` loop started from an arbitrary map. -/
def remoteIndexFrom (pages : List NotionPage) (m : List (String × String)) :
    List (String × String) :=
  pages.foldl
    (fun m page =>
      match pageName page with
      | some name => mapSet m name page.id
      | none => m)
    m

theorem getLast?_cons_or {α : Type} (a : α) (l : List α) :
    (a :: l).getLast? = l.getLast?.or (some a) := by
  cases l with
  | nil => simp
  | cons b t =>
    rw [List.getLast?_cons_cons]
    rcases h : (b :: t).getLast? with _ | x
    · simp [List.getLast?_eq_none_iff] at h
    · simp [Option.or]

theorem remoteIndexFrom_lookup (pages : List NotionPage) :
    ∀ (m : List (String × String)) (k : String),
      mapGet (remoteIndexFrom pages m) k =
        ((((qualifiedEntries pages).filter (fun e => e.1 = k)).getLast?).map
            (fun e => e.2)).or (mapGet m k) := by
  induction pages with
  | nil => intro m k; simp [remoteIndexFrom, qualifiedEntries, Option.or]
  | cons p rest ih =>
    intro m k
    have hfold : remoteIndexFrom (p :: rest) m =
        remoteIndexFrom rest
          (match pageName p with
           | some name => mapSet m name p.id
           | none => m) := rfl
    rw [hfold]
    rcases hp : pageName p with _ | n
    · simp only [hp]
      rw [ih]
      simp [qualifiedEntries, List.filterMap_cons, hp]
    · simp only [hp]
      rw [ih]
      have hqe : qualifiedEntries (p :: rest) = (n, p.id) :: qualifiedEntries rest := by
        simp [qualifiedEntries, List.filterMap_cons, hp]
      rw [hqe]
      by_cases hnk : n = k
      · subst hnk
        have hfc : ((n, p.id) :: qualifiedEntries rest).filter (fun e => e.1 = n) =
            (n, p.id) :: (qualifiedEntries rest).filter (fun e => e.1 = n) := by
          simp [List.filter_cons]
        rw [hfc]
        rcases hrest : ((qualifiedEntries rest).filter (fun e => e.1 = n)).getLast? with _ | e
        · simp [getLast?_cons_or, hrest, Option.or, mapGet_mapSet]
        · simp [getLast?_cons_or, hrest, Option.or]
      · have : ((n, p.id) :: qualifiedEntries rest).filter (fun e => e.1 = k) =
            (qualifiedEntries rest).filter (fun e => e.1 = k) := by
          simp [List.filter_cons, hnk]
        rw [this]
        rcases hrest : ((qualifiedEntries rest).filter (fun e => e.1 = k)).getLast? with _ | e
        · simp [hrest, Option.or, mapGet_mapSet, hnk]
        · simp [hrest, Option.or]

/-- C10: the Remote Index maps a name to a page id exactly when some fetched
page qualifies — its `Name` property has type `"title"`, a non-empty `title`
array, and a first element with non-empty `plain_text` — the id being that
of the *last* such page in pagination order (later pages overwrite earlier
ones); every other page is skipped. -/
theorem C10_remote_index (pages : List NotionPage) (name : String) :
    mapGet (getExistingPages pages) name =
      (((qualifiedEntries pages).filter (fun e => e.1 = name)).getLast?).map
        (fun e => e.2) := by
  have h := remoteIndexFrom_lookup pages [] name
  have hg : getExistingPages pages = remoteIndexFrom pages [] := rfl
  rw [hg, h]
  exact Option.or_none

/-! ## Claims C6 and C7: the Duplicate Detector

Closed forms for the grouping pass and the two reporting loops. -/

def nameGroups (resources : List (String × ResourceContent)) : List (String × List String) :=
  resources.foldl (fun m p => mapPush m (strToLower p.2.name) p.1) []

def urlGroups (resources : List (String × ResourceContent)) : List (String × List String) :=
  resources.foldl (fun m p => mapPush m (normalizeUrl p.2.url) p.1) []

theorem foldl_pair {α β γ : Type} (f : β → α → β) (g : γ → α → γ) :
    ∀ (xs : List α) (b : β) (c : γ),
      xs.foldl (fun p x => (f p.1 x, g p.2 x)) (b, c) = (xs.foldl f b, xs.foldl g c) := by
  intro xs
  induction xs with
  | nil => intro b c; rfl
  | cons x rest ih => intro b c; rw [List.foldl_cons, List.foldl_cons, List.foldl_cons]; exact ih (f b x) (g c x)

theorem buildGroups_eq (resources : List (String × ResourceContent)) :
    buildGroups resources = (nameGroups resources, urlGroups resources) :=
  foldl_pair
    (fun m (p : String × ResourceContent) => mapPush m (strToLower p.2.name) p.1)
    (fun m (p : String × ResourceContent) => mapPush m (normalizeUrl p.2.url) p.1)
    resources [] []

theorem mapGet_foldl_mapPush {α β : Type} (keyOf : α → String) (valOf : α → β) :
    ∀ (xs : List α) (m : List (String × List β)) (k : String),
      mapGet (xs.foldl (fun acc x => mapPush acc (keyOf x) (valOf x)) m) k =
        match mapGet m k with
        | some l => some (l ++ (xs.filter (fun x => keyOf x = k)).map valOf)
        | none =>
          if ((xs.filter (fun x => keyOf x = k)).map valOf).isEmpty then none
          else some ((xs.filter (fun x => keyOf x = k)).map valOf) := by
  intro xs
  induction xs with
  | nil =>
    intro m k
    cases h : mapGet m k <;> simp [h]
  | cons x rest ih =>
    intro m k
    rw [List.foldl_cons, ih]
    by_cases hk : keyOf x = k
    · rw [mapGet_mapPush]
      rcases hm : mapGet m k with _ | l <;>
        simp [hk, hm, List.filter_cons]
    · rw [mapGet_mapPush]
      rcases hm : mapGet m k with _ | l <;>
        simp [hk, hm, List.filter_cons]

/-- The messages one reporting loop appends for file `x`, group by group. -/
def reportContrib (msgFn : String → List String → String) :
    List (String × List String) → String → List String
  | [], _ => []
  | g :: rest, x =>
    (if g.2.length > 1 then
       (g.2.filter (fun f => f = x)).map (fun f => msgFn g.1 (g.2.filter (fun f2 => f2 ≠ f)))
     else []) ++ reportContrib msgFn rest x

theorem mapGet_reportGroup (msgFn : String → List String → String) :
    ∀ (groups : List (String × List String)) (acc : List (String × List String)) (x : String),
      mapGet (reportGroup msgFn groups acc) x =
        match mapGet acc x with
        | some l => some (l ++ reportContrib msgFn groups x)
        | none =>
          if (reportContrib msgFn groups x).isEmpty then none
          else some (reportContrib msgFn groups x) := by
  intro groups
  induction groups with
  | nil =>
    intro acc x
    cases h : mapGet acc x <;> simp [reportGroup, reportContrib, h]
  | cons g rest ih =>
    intro acc x
    by_cases hlen : g.2.length > 1
    · have hfold : reportGroup msgFn (g :: rest) acc =
          reportGroup msgFn rest
            (g.2.foldl
              (fun acc file =>
                mapPush acc file (msgFn g.1 (g.2.filter (fun f => f ≠ file)))) acc) := by
        simp [reportGroup, List.foldl_cons, hlen]
      have hinner :=
        mapGet_foldl_mapPush (fun (f : String) => f)
          (fun f => msgFn g.1 (g.2.filter (fun f2 => f2 ≠ f))) g.2 acc x
      rw [hfold, ih]
      simp only at hinner
      rw [hinner]
      have hrc : reportContrib msgFn (g :: rest) x =
          (g.2.filter (fun f => f = x)).map
            (fun f => msgFn g.1 (g.2.filter (fun f2 => f2 ≠ f))) ++
            reportContrib msgFn rest x := by
        simp [reportContrib, hlen]
      rw [hrc]
      rcases hacc : mapGet acc x with _ | l
      · rcases hic : (g.2.filter (fun f => f = x)).map
            (fun f => msgFn g.1 (g.2.filter (fun f2 => f2 ≠ f))) with _ | ⟨i, ic⟩
        · simp
        · simp
      · simp
    · have hfold : reportGroup msgFn (g :: rest) acc = reportGroup msgFn rest acc := by
        simp [reportGroup, List.foldl_cons, hlen]
      rw [hfold, ih]
      have hrc : reportContrib msgFn (g :: rest) x = reportContrib msgFn rest x := by
        simp [reportContrib, hlen]
      rw [hrc]

theorem mapGet_checkDuplicates (resources : List (String × ResourceContent)) (x : String) :
    mapGet (checkDuplicates resources) x =
      (if (reportContrib nameDupMessage (nameGroups resources) x ++
            reportContrib urlDupMessage (urlGroups resources) x).isEmpty then none
       else some (reportContrib nameDupMessage (nameGroups resources) x ++
            reportContrib urlDupMessage (urlGroups resources) x)) := by
  have hcd : checkDuplicates resources =
      reportGroup urlDupMessage (urlGroups resources)
        (reportGroup nameDupMessage (nameGroups resources) []) := by
    unfold checkDuplicates
    rw [buildGroups_eq]
  rw [hcd, mapGet_reportGroup, mapGet_reportGroup]
  have hnil : mapGet ([] : List (String × List String)) x = none := rfl
  rw [hnil]
  rcases hn : reportContrib nameDupMessage (nameGroups resources) x with _ | ⟨a, na⟩ <;>
    rcases hu : reportContrib urlDupMessage (urlGroups resources) x with _ | ⟨b, ub⟩ <;>
      simp

theorem mapGet_mem {α : Type} :
    ∀ (m : List (String × α)) (k : String) (v : α), mapGet m k = some v → (k, v) ∈ m := by
  intro m
  induction m with
  | nil => intro k v h; cases h
  | cons p rest ih =>
    obtain ⟨pk, pv⟩ := p
    intro k v h
    by_cases hpk : pk = k
    · simp only [mapGet, hpk, if_true] at h
      cases h
      subst hpk
      exact List.mem_cons_self _ _
    · simp only [mapGet, hpk, if_false] at h
      exact List.mem_cons_of_mem _ (ih k v h)

theorem reportContrib_mem (msgFn : String → List String → String)
    (groups : List (String × List String)) (k : String) (files : List String) (x : String)
    (hmem : (k, files) ∈ groups) (hlen : 1 < files.length) (hx : x ∈ files) :
    msgFn k (files.filter (fun f2 => f2 ≠ x)) ∈ reportContrib msgFn groups x := by
  induction groups with
  | nil => cases hmem
  | cons g rest ih =>
    rcases List.mem_cons.mp hmem with hg | hg
    · obtain ⟨gk, gfiles⟩ := g
      cases hg
      simp only [reportContrib]
      apply List.mem_append_left
      rw [if_pos hlen]
      exact List.mem_map.mpr ⟨x, List.mem_filter.mpr ⟨hx, by simp⟩, rfl⟩
    · exact List.mem_append_right _ (ih hg)

theorem one_lt_length_of_mem_mem {α : Type} {a b : α} {l : List α}
    (ha : a ∈ l) (hb : b ∈ l) (hne : a ≠ b) : 1 < l.length := by
  cases l with
  | nil => cases ha
  | cons x t =>
    cases t with
    | nil =>
      simp only [List.mem_singleton] at ha hb
      exact absurd (ha.trans hb.symm) hne
    | cons y u => simp

theorem mapGet_nameGroups (resources : List (String × ResourceContent)) (k : String) :
    mapGet (nameGroups resources) k =
      (if ((resources.filter (fun p => strToLower p.2.name = k)).map Prod.fst).isEmpty
       then none
       else some ((resources.filter (fun p => strToLower p.2.name = k)).map Prod.fst)) := by
  have h := mapGet_foldl_mapPush
    (fun (p : String × ResourceContent) => strToLower p.2.name)
    (fun (p : String × ResourceContent) => p.1) resources [] k
  simpa [nameGroups] using h

theorem mapGet_urlGroups (resources : List (String × ResourceContent)) (k : String) :
    mapGet (urlGroups resources) k =
      (if ((resources.filter (fun p => normalizeUrl p.2.url = k)).map Prod.fst).isEmpty
       then none
       else some ((resources.filter (fun p => normalizeUrl p.2.url = k)).map Prod.fst)) := by
  have h := mapGet_foldl_mapPush
    (fun (p : String × ResourceContent) => normalizeUrl p.2.url)
    (fun (p : String × ResourceContent) => p.1) resources [] k
  simpa [urlGroups] using h

theorem checkDuplicates_flags_name (resources : List (String × ResourceContent))
    (fp1 fp2 : String) (c1 c2 : ResourceContent)
    (h1 : (fp1, c1) ∈ resources) (h2 : (fp2, c2) ∈ resources) (hne : fp1 ≠ fp2)
    (hname : strToLower c1.name = strToLower c2.name) :
    ∃ errs others, mapGet (checkDuplicates resources) fp1 = some errs ∧
      nameDupMessage (strToLower c1.name) others ∈ errs ∧
      fp2 ∈ others ∧ fp1 ∉ others := by
  have hf1 : fp1 ∈ (resources.filter
      (fun p => strToLower p.2.name = strToLower c1.name)).map Prod.fst :=
    List.mem_map.mpr ⟨(fp1, c1), List.mem_filter.mpr ⟨h1, by simp⟩, rfl⟩
  have hf2 : fp2 ∈ (resources.filter
      (fun p => strToLower p.2.name = strToLower c1.name)).map Prod.fst :=
    List.mem_map.mpr ⟨(fp2, c2), List.mem_filter.mpr ⟨h2, by simp [hname]⟩, rfl⟩
  have hlen := one_lt_length_of_mem_mem hf1 hf2 hne
  have hnonempty : ¬ ((resources.filter
      (fun p => strToLower p.2.name = strToLower c1.name)).map Prod.fst).isEmpty = true := by
    intro hempty
    rw [List.isEmpty_iff] at hempty
    rw [hempty] at hf1
    cases hf1
  have hgroups : mapGet (nameGroups resources) (strToLower c1.name) =
      some ((resources.filter
        (fun p => strToLower p.2.name = strToLower c1.name)).map Prod.fst) := by
    rw [mapGet_nameGroups, if_neg hnonempty]
  have hmsg := reportContrib_mem nameDupMessage (nameGroups resources)
    (strToLower c1.name)
    ((resources.filter (fun p => strToLower p.2.name = strToLower c1.name)).map Prod.fst)
    fp1 (mapGet_mem _ _ _ hgroups) hlen hf1
  have hemp : ¬ (reportContrib nameDupMessage (nameGroups resources) fp1 ++
      reportContrib urlDupMessage (urlGroups resources) fp1).isEmpty = true := by
    intro hempty
    rw [List.isEmpty_iff] at hempty
    rcases List.append_eq_nil.mp hempty with ⟨hl, _⟩
    rw [hl] at hmsg
    cases hmsg
  refine ⟨reportContrib nameDupMessage (nameGroups resources) fp1 ++
      reportContrib urlDupMessage (urlGroups resources) fp1,
    ((resources.filter (fun p => strToLower p.2.name = strToLower c1.name)).map
      Prod.fst).filter (fun f2 => f2 ≠ fp1), ?_, ?_, ?_, ?_⟩
  · rw [mapGet_checkDuplicates, if_neg hemp]
  · exact List.mem_append_left _ hmsg
  · exact List.mem_filter.mpr ⟨hf2, by simpa using Ne.symm hne⟩
  · intro hc
    have := (List.mem_filter.mp hc).2
    simp at this

theorem checkDuplicates_flags_url (resources : List (String × ResourceContent))
    (fp1 fp2 : String) (c1 c2 : ResourceContent)
    (h1 : (fp1, c1) ∈ resources) (h2 : (fp2, c2) ∈ resources) (hne : fp1 ≠ fp2)
    (hurl : normalizeUrl c1.url = normalizeUrl c2.url) :
    ∃ errs others, mapGet (checkDuplicates resources) fp1 = some errs ∧
      urlDupMessage (normalizeUrl c1.url) others ∈ errs ∧
      fp2 ∈ others ∧ fp1 ∉ others := by
  have hf1 : fp1 ∈ (resources.filter
      (fun p => normalizeUrl p.2.url = normalizeUrl c1.url)).map Prod.fst :=
    List.mem_map.mpr ⟨(fp1, c1), List.mem_filter.mpr ⟨h1, by simp⟩, rfl⟩
  have hf2 : fp2 ∈ (resources.filter
      (fun p => normalizeUrl p.2.url = normalizeUrl c1.url)).map Prod.fst :=
    List.mem_map.mpr ⟨(fp2, c2), List.mem_filter.mpr ⟨h2, by simp [hurl]⟩, rfl⟩
  have hlen := one_lt_length_of_mem_mem hf1 hf2 hne
  have hnonempty : ¬ ((resources.filter
      (fun p => normalizeUrl p.2.url = normalizeUrl c1.url)).map Prod.fst).isEmpty = true := by
    intro hempty
    rw [List.isEmpty_iff] at hempty
    rw [hempty] at hf1
    cases hf1
  have hgroups : mapGet (urlGroups resources) (normalizeUrl c1.url) =
      some ((resources.filter
        (fun p => normalizeUrl p.2.url = normalizeUrl c1.url)).map Prod.fst) := by
    rw [mapGet_urlGroups, if_neg hnonempty]
  have hmsg := reportContrib_mem urlDupMessage (urlGroups resources)
    (normalizeUrl c1.url)
    ((resources.filter (fun p => normalizeUrl p.2.url = normalizeUrl c1.url)).map Prod.fst)
    fp1 (mapGet_mem _ _ _ hgroups) hlen hf1
  have hemp : ¬ (reportContrib nameDupMessage (nameGroups resources) fp1 ++
      reportContrib urlDupMessage (urlGroups resources) fp1).isEmpty = true := by
    intro hempty
    rw [List.isEmpty_iff] at hempty
    rcases List.append_eq_nil.mp hempty with ⟨_, hl⟩
    rw [hl] at hmsg
    cases hmsg
  refine ⟨reportContrib nameDupMessage (nameGroups resources) fp1 ++
      reportContrib urlDupMessage (urlGroups resources) fp1,
    ((resources.filter (fun p => normalizeUrl p.2.url = normalizeUrl c1.url)).map
      Prod.fst).filter (fun f2 => f2 ≠ fp1), ?_, ?_, ?_, ?_⟩
  · rw [mapGet_checkDuplicates, if_neg hemp]
  · exact List.mem_append_right _ hmsg
  · exact List.mem_filter.mpr ⟨hf2, by simpa using Ne.symm hne⟩
  · intro hc
    have := (List.mem_filter.mp hc).2
    simp at this

/-- C6: any two corpus records whose names agree after case folding are both
flagged by the Duplicate Detector, each with a name-duplicate message built
over a list of colliding files that contains the other record's file and
never the record's own file. -/
theorem C6_duplicate_names (resources : List (String × ResourceContent))
    (fp1 fp2 : String) (c1 c2 : ResourceContent)
    (h1 : (fp1, c1) ∈ resources) (h2 : (fp2, c2) ∈ resources) (hne : fp1 ≠ fp2)
    (hname : strToLower c1.name = strToLower c2.name) :
    (∃ errs others, mapGet (checkDuplicates resources) fp1 = some errs ∧
       nameDupMessage (strToLower c1.name) others ∈ errs ∧
       fp2 ∈ others ∧ fp1 ∉ others) ∧
    (∃ errs others, mapGet (checkDuplicates resources) fp2 = some errs ∧
       nameDupMessage (strToLower c2.name) others ∈ errs ∧
       fp1 ∈ others ∧ fp2 ∉ others) :=
  ⟨checkDuplicates_flags_name resources fp1 fp2 c1 c2 h1 h2 hne hname,
   checkDuplicates_flags_name resources fp2 fp1 c2 c1 h2 h1 hne.symm hname.symm⟩

def recUpper : ResourceContent := sampleRecord

def recLower : ResourceContent :=
  { sampleRecord with name := "learn x", url := "https://b.com" }

/-- C6 (witness): the theorem at a concrete two-record corpus whose names
differ only by case. -/
theorem C6_witness :
    (∃ errs others,
       mapGet (checkDuplicates [("a.json", recUpper), ("b.json", recLower)]) "a.json" =
         some errs ∧
       nameDupMessage (strToLower recUpper.name) others ∈ errs ∧
       "b.json" ∈ others ∧ "a.json" ∉ others) ∧
    (∃ errs others,
       mapGet (checkDuplicates [("a.json", recUpper), ("b.json", recLower)]) "b.json" =
         some errs ∧
       nameDupMessage (strToLower recLower.name) others ∈ errs ∧
       "a.json" ∈ others ∧ "b.json" ∉ others) :=
  C6_duplicate_names [("a.json", recUpper), ("b.json", recLower)]
    "a.json" "b.json" recUpper recLower (by decide) (by decide) (by decide) (by decide)

def c7SlashRec : ResourceContent := { sampleRecord with name := "A", url := "https://a.com/" }

def c7DoubleSlashRec : ResourceContent :=
  { sampleRecord with name := "B", url := "https://a.com//" }

/-- C7 (counterexample): the URLs `https://a.com/` and `https://a.com//`
differ only by one trailing slash, yet normalisation (which removes at most
one trailing slash after lowercasing) sends them to different keys and the
detector flags neither record. -/
theorem C7_counterexample :
    c7DoubleSlashRec.url = c7SlashRec.url ++ "/" ∧
    normalizeUrl c7SlashRec.url ≠ normalizeUrl c7DoubleSlashRec.url ∧
    checkDuplicates [("a.json", c7SlashRec), ("b.json", c7DoubleSlashRec)] = [] := by
  decide

/-- C7 (amended): any two corpus records whose URLs agree after
normalisation — lowercasing followed by removal of at most one trailing
slash, which covers URLs differing only by case, or by one trailing slash
when the shorter does not itself end in a slash — receive the same key and
are both flagged, each with a URL-duplicate message whose colliding-file
list contains the other record's file and never the record's own file. -/
theorem C7_amended (resources : List (String × ResourceContent))
    (fp1 fp2 : String) (c1 c2 : ResourceContent)
    (h1 : (fp1, c1) ∈ resources) (h2 : (fp2, c2) ∈ resources) (hne : fp1 ≠ fp2)
    (hurl : normalizeUrl c1.url = normalizeUrl c2.url) :
    (∃ errs others, mapGet (checkDuplicates resources) fp1 = some errs ∧
       urlDupMessage (normalizeUrl c1.url) others ∈ errs ∧
       fp2 ∈ others ∧ fp1 ∉ others) ∧
    (∃ errs others, mapGet (checkDuplicates resources) fp2 = some errs ∧
       urlDupMessage (normalizeUrl c2.url) others ∈ errs ∧
       fp1 ∈ others ∧ fp2 ∉ others) :=
  ⟨checkDuplicates_flags_url resources fp1 fp2 c1 c2 h1 h2 hne hurl,
   checkDuplicates_flags_url resources fp2 fp1 c2 c1 h2 h1 hne.symm hurl.symm⟩

def c7CaseRec : ResourceContent := { sampleRecord with name := "C", url := "https://A.com/" }

/-- C7 (witness): the amended theorem at a concrete two-record corpus whose
URLs differ only by case and one trailing slash. -/
theorem C7_witness :
    (∃ errs others,
       mapGet (checkDuplicates [("a.json", sampleRecord), ("c.json", c7CaseRec)]) "a.json" =
         some errs ∧
       urlDupMessage (normalizeUrl sampleRecord.url) others ∈ errs ∧
       "c.json" ∈ others ∧ "a.json" ∉ others) ∧
    (∃ errs others,
       mapGet (checkDuplicates [("a.json", sampleRecord), ("c.json", c7CaseRec)]) "c.json" =
         some errs ∧
       urlDupMessage (normalizeUrl c7CaseRec.url) others ∈ errs ∧
       "a.json" ∈ others ∧ "c.json" ∉ others) :=
  C7_amended [("a.json", sampleRecord), ("c.json", c7CaseRec)]
    "a.json" "c.json" sampleRecord c7CaseRec (by decide) (by decide) (by decide) (by decide)

/-! ## Claim C1: the duplicate reclassification pass of `runTests` -/

/-- Every record whose JSON parsed, keyed by file — the set the code hands
to the Duplicate Detector. -/
def parsedResources (env : OrchestratorEnv) (jsonFiles : List String) :
    List (String × ResourceContent) :=
  jsonFiles.filterMap (fun fp =>
    match env.readJson fp with
    | .ok c => some (fp, c)
    | .error _ => none)

/-- The claim's words: the subset of records that parsed *and passed schema
validation*. -/
def schemaPassingResources (env : OrchestratorEnv) (jsonFiles : List String) :
    List (String × ResourceContent) :=
  jsonFiles.filterMap (fun fp =>
    match env.readJson fp with
    | .ok c => if env.validateSchema c = [] then some (fp, c) else none
    | .error _ => none)

theorem validateJsonFile_content (env : OrchestratorEnv) (skipUrlCheck : Bool)
    (filePath : String) (checkUrls : Bool) :
    (validateJsonFile env skipUrlCheck filePath checkUrls).2 =
      match env.readJson filePath with
      | .ok c => some c
      | .error _ => none := by
  rcases h : env.readJson filePath with msg | c
  · simp [validateJsonFile, h]
  · simp only [validateJsonFile, h]
    split <;> rfl

theorem firstPassFrom_resources (env : OrchestratorEnv) (skipUrlCheck : Bool) :
    ∀ (files : List String) (st : TestState),
      files.Nodup → (∀ fp ∈ files, mapGet st.resources fp = none) →
      (firstPassFrom env skipUrlCheck files st).resources =
        st.resources ++ parsedResources env files := by
  intro files
  induction files with
  | nil => intro st _ _; simp [firstPassFrom, parsedResources]
  | cons fp rest ih =>
    intro st hnd hpre
    have hfold : firstPassFrom env skipUrlCheck (fp :: rest) st =
        firstPassFrom env skipUrlCheck rest (firstPassStep env skipUrlCheck st fp) := rfl
    rw [hfold]
    have hndr : rest.Nodup := (List.nodup_cons.mp hnd).2
    have hfpnotin : fp ∉ rest := (List.nodup_cons.mp hnd).1
    have hcontent := validateJsonFile_content env skipUrlCheck fp (! skipUrlCheck)
    rcases h : env.readJson fp with msg | c
    · rw [h] at hcontent
      have hres : (firstPassStep env skipUrlCheck st fp).resources = st.resources := by
        by_cases hv : (validateJsonFile env skipUrlCheck fp (! skipUrlCheck)).1.valid <;>
          simp [firstPassStep, hcontent, hv]
      have hpre' : ∀ fp' ∈ rest,
          mapGet (firstPassStep env skipUrlCheck st fp).resources fp' = none := by
        intro fp' hfp'
        rw [hres]
        exact hpre fp' (List.mem_cons_of_mem _ hfp')
      rw [ih (firstPassStep env skipUrlCheck st fp) hndr hpre', hres]
      simp [parsedResources, List.filterMap_cons, h]
    · rw [h] at hcontent
      have hset : mapSet st.resources fp c = st.resources ++ [(fp, c)] :=
        mapSet_eq_append _ _ _ (hpre fp (List.mem_cons_self _ _))
      have hres : (firstPassStep env skipUrlCheck st fp).resources =
          st.resources ++ [(fp, c)] := by
        by_cases hv : (validateJsonFile env skipUrlCheck fp (! skipUrlCheck)).1.valid <;>
          simp [firstPassStep, hcontent, hv, hset]
      have hpre' : ∀ fp' ∈ rest,
          mapGet (firstPassStep env skipUrlCheck st fp).resources fp' = none := by
        intro fp' hfp'
        rw [hres, mapGet_append_of_ne _ _ _ _
          (fun heq => hfpnotin (by rw [heq]; exact hfp'))]
        exact hpre fp' (List.mem_cons_of_mem _ hfp')
      rw [ih (firstPassStep env skipUrlCheck st fp) hndr hpre', hres]
      simp [parsedResources, List.filterMap_cons, h, List.append_assoc]

def countValid (rs : List ValidationResult) : Nat :=
  (rs.filter (fun r => r.valid)).length

def countInvalid (rs : List ValidationResult) : Nat :=
  (rs.filter (fun r => ! r.valid)).length

theorem countValid_append_single (rs : List ValidationResult) (r : ValidationResult) :
    countValid (rs ++ [r]) = countValid rs + (if r.valid then 1 else 0) ∧
    countInvalid (rs ++ [r]) = countInvalid rs + (if r.valid then 0 else 1) := by
  by_cases hv : r.valid <;>
    simp [countValid, countInvalid, List.filter_append, hv]

theorem firstPassFrom_counts (env : OrchestratorEnv) (skipUrlCheck : Bool) :
    ∀ (files : List String) (st : TestState),
      st.passCount = (countValid st.results : Int) →
      st.failCount = (countInvalid st.results : Int) →
      (firstPassFrom env skipUrlCheck files st).passCount =
        (countValid (firstPassFrom env skipUrlCheck files st).results : Int) ∧
      (firstPassFrom env skipUrlCheck files st).failCount =
        (countInvalid (firstPassFrom env skipUrlCheck files st).results : Int) := by
  intro files
  induction files with
  | nil => intro st hp hf; exact ⟨hp, hf⟩
  | cons fp rest ih =>
    intro st hp hf
    have hfold : firstPassFrom env skipUrlCheck (fp :: rest) st =
        firstPassFrom env skipUrlCheck rest (firstPassStep env skipUrlCheck st fp) := rfl
    rw [hfold]
    have hca := countValid_append_single st.results
      (validateJsonFile env skipUrlCheck fp (! skipUrlCheck)).1
    apply ih
    · by_cases hv : (validateJsonFile env skipUrlCheck fp (! skipUrlCheck)).1.valid
      · have h1 := hca.1
        rw [if_pos hv] at h1
        simp only [firstPassStep, hv, if_true]
        rw [h1, hp]
        push_cast
        ring
      · have h1 := hca.1
        rw [if_neg hv] at h1
        simp only [firstPassStep, hv, Bool.false_eq_true, if_false]
        rw [h1, hp]
        push_cast
        ring
    · by_cases hv : (validateJsonFile env skipUrlCheck fp (! skipUrlCheck)).1.valid
      · have h2 := hca.2
        rw [if_pos hv] at h2
        simp only [firstPassStep, hv, if_true]
        rw [h2, hf]
        push_cast
        ring
      · have h2 := hca.2
        rw [if_neg hv] at h2
        simp only [firstPassStep, hv, Bool.false_eq_true, if_false]
        rw [h2, hf]
        push_cast
        ring

theorem not_mem_keys_of_mapGet_none {α : Type} :
    ∀ (m : List (String × α)) (k : String),
      mapGet m k = none → k ∉ m.map Prod.fst := by
  intro m
  induction m with
  | nil => intro k _ h; cases h
  | cons p rest ih =>
    obtain ⟨pk, pv⟩ := p
    intro k hget hmem
    by_cases hpk : pk = k
    · simp [mapGet, hpk] at hget
    · rcases List.mem_cons.mp hmem with heq | hmem'
      · exact hpk heq.symm
      · exact ih k (by simpa [mapGet, hpk] using hget) hmem'

theorem keys_mapSet {α : Type} :
    ∀ (m : List (String × α)) (k : String) (v : α),
      (mapSet m k v).map Prod.fst =
        match mapGet m k with
        | none => m.map Prod.fst ++ [k]
        | some _ => m.map Prod.fst := by
  intro m
  induction m with
  | nil => intro k v; simp [mapSet, mapGet]
  | cons p rest ih =>
    obtain ⟨pk, pv⟩ := p
    intro k v
    by_cases hpk : pk = k
    · simp [mapSet, mapGet, hpk]
    · have hm : mapGet ((pk, pv) :: rest) k = mapGet rest k := by simp [mapGet, hpk]
      rw [hm]
      simp only [mapSet, hpk, if_false, List.map_cons]
      rw [ih]
      rcases hg : mapGet rest k with _ | w <;> simp

theorem keysNodup_mapSet {α : Type} (m : List (String × α)) (k : String) (v : α)
    (h : (m.map Prod.fst).Nodup) : ((mapSet m k v).map Prod.fst).Nodup := by
  rcases hg : mapGet m k with _ | w
  · simp only [keys_mapSet, hg]
    rw [List.nodup_append]
    exact ⟨h, List.nodup_singleton _,
      fun a ha hak => not_mem_keys_of_mapGet_none m k hg
        (by rcases List.mem_singleton.mp hak with rfl; exact ha)⟩
  · simp only [keys_mapSet, hg]
    exact h

theorem keysNodup_foldl_mapPush {α β : Type} (keyOf : α → String) (valOf : α → β) :
    ∀ (xs : List α) (m : List (String × List β)),
      (m.map Prod.fst).Nodup →
      (((xs.foldl (fun acc x => mapPush acc (keyOf x) (valOf x)) m)).map Prod.fst).Nodup := by
  intro xs
  induction xs with
  | nil => intro m h; exact h
  | cons x rest ih =>
    intro m h
    rw [List.foldl_cons]
    exact ih _ (keysNodup_mapSet _ _ _ h)

theorem keysNodup_reportGroup (msgFn : String → List String → String) :
    ∀ (groups : List (String × List String)) (acc : List (String × List String)),
      (acc.map Prod.fst).Nodup →
      ((reportGroup msgFn groups acc).map Prod.fst).Nodup := by
  intro groups
  induction groups with
  | nil => intro acc h; exact h
  | cons g rest ih =>
    intro acc h
    by_cases hlen : g.2.length > 1
    · have hfold : reportGroup msgFn (g :: rest) acc =
          reportGroup msgFn rest
            (g.2.foldl
              (fun acc file =>
                mapPush acc file (msgFn g.1 (g.2.filter (fun f => f ≠ file)))) acc) := by
        simp [reportGroup, List.foldl_cons, hlen]
      rw [hfold]
      exact ih _ (keysNodup_foldl_mapPush (fun (f : String) => f)
        (fun f => msgFn g.1 (g.2.filter (fun f2 => f2 ≠ f))) g.2 acc h)
    · have hfold : reportGroup msgFn (g :: rest) acc = reportGroup msgFn rest acc := by
        simp [reportGroup, List.foldl_cons, hlen]
      rw [hfold]
      exact ih acc h

theorem keysNodup_checkDuplicates (resources : List (String × ResourceContent)) :
    ((checkDuplicates resources).map Prod.fst).Nodup := by
  have hcd : checkDuplicates resources =
      reportGroup urlDupMessage (urlGroups resources)
        (reportGroup nameDupMessage (nameGroups resources) []) := by
    unfold checkDuplicates
    rw [buildGroups_eq]
  rw [hcd]
  exact keysNodup_reportGroup _ _ _
    (keysNodup_reportGroup _ _ _ (by simp))

theorem find?_invalidateFirst_self :
    ∀ (rs : List ValidationResult) (fp : String) (errs : List String) (r : ValidationResult),
      rs.find? (fun r2 => r2.file = fp) = some r →
      (invalidateFirst rs fp errs).find? (fun r2 => r2.file = fp) =
        some { r with valid := false, errors := some errs } := by
  intro rs
  induction rs with
  | nil => intro fp errs r h; cases h
  | cons r0 rest ih =>
    intro fp errs r h
    by_cases h0 : r0.file = fp
    · rw [List.find?_cons_of_pos _ (by simpa using h0)] at h
      cases h
      simp only [invalidateFirst, h0, if_true]
      rw [List.find?_cons_of_pos _ (by simp [h0])]
    · rw [List.find?_cons_of_neg _ (by simpa using h0)] at h
      simp only [invalidateFirst, h0, if_false]
      rw [List.find?_cons_of_neg _ (by simpa using h0)]
      exact ih fp errs r h

theorem find?_invalidateFirst_ne :
    ∀ (rs : List ValidationResult) (fp fp' : String) (errs : List String),
      fp' ≠ fp →
      (invalidateFirst rs fp' errs).find? (fun r2 => r2.file = fp) =
        rs.find? (fun r2 => r2.file = fp) := by
  intro rs
  induction rs with
  | nil => intro fp fp' errs _; rfl
  | cons r0 rest ih =>
    intro fp fp' errs hne
    by_cases h0 : r0.file = fp'
    · simp only [invalidateFirst, h0, if_true]
      rw [List.find?_cons_of_neg _ (by simp [h0]; exact hne),
        List.find?_cons_of_neg _ (by simp [h0]; exact hne)]
    · simp only [invalidateFirst, h0, if_false]
      by_cases hfp : r0.file = fp
      · rw [List.find?_cons_of_pos _ (by simpa using hfp),
          List.find?_cons_of_pos _ (by simpa using hfp)]
      · rw [List.find?_cons_of_neg _ (by simpa using hfp),
          List.find?_cons_of_neg _ (by simpa using hfp)]
        exact ih fp fp' errs hne

theorem secondPass_eq_foldl (st : TestState) (dups : List (String × List String)) :
    secondPass st dups = dups.foldl secondPassStep st := rfl

theorem secondPassStep_find_ne (st : TestState) (p : String × List String) (fp : String)
    (hne : p.1 ≠ fp) :
    (secondPassStep st p).results.find? (fun r2 => r2.file = fp) =
      st.results.find? (fun r2 => r2.file = fp) := by
  unfold secondPassStep
  rcases hfind : st.results.find? (fun r => r.file = p.1) with _ | r
  · simp only [hfind]
  · simp only [hfind]
    by_cases hv : r.valid
    · simp only [hv, if_true]
      exact find?_invalidateFirst_ne st.results fp p.1 p.2 hne
    · simp only [hv, Bool.false_eq_true, if_false]

theorem secondPass_find_not_flagged :
    ∀ (dups : List (String × List String)) (st : TestState) (fp : String),
      fp ∉ dups.map Prod.fst →
      (secondPass st dups).results.find? (fun r2 => r2.file = fp) =
        st.results.find? (fun r2 => r2.file = fp) := by
  intro dups
  induction dups with
  | nil => intro st fp _; rfl
  | cons d rest ih =>
    intro st fp hnotin
    have hne : d.1 ≠ fp := by
      intro h
      exact hnotin (by rw [List.map_cons, h]; exact List.mem_cons_self _ _)
    have hnotin' : fp ∉ rest.map Prod.fst := by
      intro h
      exact hnotin (by rw [List.map_cons]; exact List.mem_cons_of_mem _ h)
    rw [secondPass_eq_foldl, List.foldl_cons, ← secondPass_eq_foldl,
      ih (secondPassStep st d) fp hnotin', secondPassStep_find_ne st d fp hne]

theorem secondPass_find_flagged :
    ∀ (dups : List (String × List String)), (dups.map Prod.fst).Nodup →
    ∀ (st : TestState) (fp : String) (errs : List String) (r : ValidationResult),
      (fp, errs) ∈ dups →
      st.results.find? (fun r2 => r2.file = fp) = some r →
      (secondPass st dups).results.find? (fun r2 => r2.file = fp) =
        some (if r.valid then { r with valid := false, errors := some errs } else r) := by
  intro dups
  induction dups with
  | nil => intro _ st fp errs r hmem _; cases hmem
  | cons d rest ih =>
    intro hnd st fp errs r hmem hfind
    have hnd' : (d.1 :: rest.map Prod.fst).Nodup := by
      rw [List.map_cons] at hnd
      exact hnd
    have hknotin : d.1 ∉ rest.map Prod.fst := (List.nodup_cons.mp hnd').1
    have hndr : (rest.map Prod.fst).Nodup := (List.nodup_cons.mp hnd').2
    rcases List.mem_cons.mp hmem with hd | hd
    · subst hd
      rw [secondPass_eq_foldl, List.foldl_cons, ← secondPass_eq_foldl,
        secondPass_find_not_flagged rest _ fp hknotin]
      by_cases hv : r.valid
      · have hstep : (secondPassStep st (fp, errs)).results =
            invalidateFirst st.results fp errs := by
          simp [secondPassStep, hfind, hv]
        rw [hstep, find?_invalidateFirst_self st.results fp errs r hfind]
        simp [hv]
      · have hstep : secondPassStep st (fp, errs) = st := by
          simp [secondPassStep, hfind, hv]
        rw [hstep, hfind]
        simp [hv]
    · have hfpkeys : fp ∈ rest.map Prod.fst :=
        List.mem_map.mpr ⟨(fp, errs), hd, rfl⟩
      have hne : d.1 ≠ fp := by
        intro h
        rw [h] at hknotin
        exact hknotin hfpkeys
      rw [secondPass_eq_foldl, List.foldl_cons, ← secondPass_eq_foldl]
      exact ih hndr (secondPassStep st d) fp errs r hd
        (by rw [secondPassStep_find_ne st d fp hne]; exact hfind)

theorem countValid_invalidateFirst :
    ∀ (rs : List ValidationResult) (fp : String) (errs : List String) (r : ValidationResult),
      rs.find? (fun r2 => r2.file = fp) = some r → r.valid = true →
      countValid (invalidateFirst rs fp errs) + 1 = countValid rs ∧
      countInvalid (invalidateFirst rs fp errs) = countInvalid rs + 1 := by
  intro rs
  induction rs with
  | nil => intro fp errs r h _; cases h
  | cons r0 rest ih =>
    intro fp errs r h hv
    by_cases h0 : r0.file = fp
    · rw [List.find?_cons_of_pos _ (by simpa using h0)] at h
      cases h
      simp [invalidateFirst, h0, countValid, countInvalid, List.filter_cons, hv]
    · rw [List.find?_cons_of_neg _ (by simpa using h0)] at h
      obtain ⟨ih1, ih2⟩ := ih fp errs r h hv
      by_cases hv0 : r0.valid <;>
        · simp only [invalidateFirst, h0, if_false, countValid, countInvalid,
            List.filter_cons, hv0] at *
          simp [hv0] at *
          omega

theorem secondPass_counts :
    ∀ (dups : List (String × List String)) (st : TestState),
      st.passCount = (countValid st.results : Int) →
      st.failCount = (countInvalid st.results : Int) →
      (secondPass st dups).passCount = (countValid (secondPass st dups).results : Int) ∧
      (secondPass st dups).failCount = (countInvalid (secondPass st dups).results : Int) := by
  intro dups
  induction dups with
  | nil => intro st hp hf; exact ⟨hp, hf⟩
  | cons d rest ih =>
    intro st hp hf
    rw [secondPass_eq_foldl, List.foldl_cons, ← secondPass_eq_foldl]
    apply ih
    · unfold secondPassStep
      rcases hfind : st.results.find? (fun r => r.file = d.1) with _ | r
      · simp only [hfind]
        exact hp
      · by_cases hv : r.valid
        · obtain ⟨hc1, hc2⟩ := countValid_invalidateFirst st.results d.1 d.2 r hfind hv
          simp only [hfind, hv, if_true]
          rw [hp]
          omega
        · simp only [hfind, hv, Bool.false_eq_true, if_false]
          exact hp
    · unfold secondPassStep
      rcases hfind : st.results.find? (fun r => r.file = d.1) with _ | r
      · simp only [hfind]
        exact hf
      · by_cases hv : r.valid
        · obtain ⟨hc1, hc2⟩ := countValid_invalidateFirst st.results d.1 d.2 r hfind hv
          simp only [hfind, hv, if_true]
          rw [hf]
          omega
        · simp only [hfind, hv, Bool.false_eq_true, if_false]
          exact hf

/-- C1 (amended): for a corpus of distinct file paths, the Duplicate
Detector inside `runTests` receives exactly the records whose JSON parsed —
including records that failed schema validation — and, for every file it
flags, the final result is the first-pass result forced to invalid with its
error list overwritten by the duplicate-conflict messages *when that file
had previously passed*, while an already-failed flagged file keeps its
first-pass result unchanged; the final passed and failed counters equal the
number of valid and invalid results after this reclassification. -/
theorem C1_amended (env : OrchestratorEnv) (skipUrlCheck : Bool)
    (jsonFiles : List String) (hnd : jsonFiles.Nodup) :
    (firstPass env skipUrlCheck jsonFiles).resources = parsedResources env jsonFiles ∧
    (∀ fp errs r,
       mapGet (checkDuplicates (firstPass env skipUrlCheck jsonFiles).resources) fp =
         some errs →
       (firstPass env skipUrlCheck jsonFiles).results.find? (fun r2 => r2.file = fp) =
         some r →
       (runTests env skipUrlCheck jsonFiles).results.find? (fun r2 => r2.file = fp) =
         some (if r.valid then { r with valid := false, errors := some errs } else r)) ∧
    (runTests env skipUrlCheck jsonFiles).passCount =
      (countValid (runTests env skipUrlCheck jsonFiles).results : Int) ∧
    (runTests env skipUrlCheck jsonFiles).failCount =
      (countInvalid (runTests env skipUrlCheck jsonFiles).results : Int) := by
  have hres : (firstPass env skipUrlCheck jsonFiles).resources =
      parsedResources env jsonFiles := by
    have h := firstPassFrom_resources env skipUrlCheck jsonFiles initialTestState hnd
      (by intro fp _; rfl)
    simpa [firstPass, initialTestState] using h
  have hruns : runTests env skipUrlCheck jsonFiles =
      secondPass (firstPass env skipUrlCheck jsonFiles)
        (checkDuplicates (firstPass env skipUrlCheck jsonFiles).resources) := rfl
  have hcounts := firstPassFrom_counts env skipUrlCheck jsonFiles initialTestState
    (by rfl) (by rfl)
  refine ⟨hres, ?_, ?_, ?_⟩
  · intro fp errs r hdup hfind
    rw [hruns]
    exact secondPass_find_flagged _
      (keysNodup_checkDuplicates (firstPass env skipUrlCheck jsonFiles).resources)
      _ fp errs r (mapGet_mem _ _ _ hdup) hfind
  · rw [hruns]
    exact (secondPass_counts _ _ hcounts.1 hcounts.2).1
  · rw [hruns]
    exact (secondPass_counts _ _ hcounts.1 hcounts.2).2

def c1RecordA : ResourceContent := sampleRecord

def c1RecordB : ResourceContent :=
  { sampleRecord with name := "learn x", url := "https://b.com" }

def c1Env : OrchestratorEnv :=
  { readJson := fun fp =>
      if fp = "sites/a.json" then .ok c1RecordA else .ok c1RecordB,
    validateSchema := fun c =>
      if c.name = "learn x" then
        ["Schema: (root) must have required property pricing"]
      else [],
    urlEnv :=
      { parsesAsUrl := fun _ => true,
        headReq := fun _ _ => .resp true 200,
        getReq := fun _ _ => .resp true 200 } }

def c1Files : List String := ["sites/a.json", "sites/b.json"]

/-- C1 (counterexample): a two-file corpus where `sites/a.json` passes
schema validation and `sites/b.json` parses but fails it, while the two
records share a case-folded name.  The detector input is *not* the subset
that parsed and passed schema validation: restricted to that subset it would
flag nothing and the run would keep 1 passed file, but the code feeds it
both parsed records, flags both, reports 0 passed and 2 failed — and the
flagged, already-failed `sites/b.json` keeps its schema errors instead of
having its error list overwritten with the duplicate messages. -/
theorem C1_counterexample :
    (firstPass c1Env true c1Files).resources ≠ schemaPassingResources c1Env c1Files ∧
    checkDuplicates (schemaPassingResources c1Env c1Files) = [] ∧
    (firstPass c1Env true c1Files).passCount = 1 ∧
    (runTests c1Env true c1Files).passCount = 0 ∧
    (runTests c1Env true c1Files).failCount = 2 ∧
    mapGet (checkDuplicates (firstPass c1Env true c1Files).resources) "sites/b.json" =
      some [nameDupMessage "learn x" ["sites/a.json"]] ∧
    (runTests c1Env true c1Files).results.find? (fun r => r.file = "sites/b.json") =
      some { file := "sites/b.json", valid := false,
             errors := some ["Schema: (root) must have required property pricing"],
             warnings := none } := by
  decide

/-- C1 (witness): the amended claim at the concrete two-file corpus. -/
theorem C1_witness :
    (firstPass c1Env true c1Files).resources = parsedResources c1Env c1Files ∧
    (∀ fp errs r,
       mapGet (checkDuplicates (firstPass c1Env true c1Files).resources) fp =
         some errs →
       (firstPass c1Env true c1Files).results.find? (fun r2 => r2.file = fp) =
         some r →
       (runTests c1Env true c1Files).results.find? (fun r2 => r2.file = fp) =
         some (if r.valid then { r with valid := false, errors := some errs } else r)) ∧
    (runTests c1Env true c1Files).passCount =
      (countValid (runTests c1Env true c1Files).results : Int) ∧
    (runTests c1Env true c1Files).failCount =
      (countInvalid (runTests c1Env true c1Files).results : Int) :=
  C1_amended c1Env true c1Files (by decide)

end LearnIndex
